import Mathlib

/-!
Verification of the `sheets` terminal spreadsheet (C sources: `eval.c`,
`sheets.c`, `config.def.h`).

The development shallowly embeds the program:

* Numeric values (C `double`) are modelled exactly as an extended-rational
  type `Val` (finite rationals plus the two infinities and a NaN), with the
  IEEE-754 special-value rules for the operations the program performs but
  without rounding: none of the verified properties depends on rounding.
* Strings are `List Char`; the roving `pos` pointer of `eval.c` becomes
  explicit remaining-input lists.
* The recursive-descent evaluator is embedded with a fuel parameter; a
  theorem shows fuel `length + 1` always suffices, which is the shape of the
  C termination argument (every recursive call that re-enters a parse
  function has consumed at least one character).
* The libc helpers `strtod` and `snprintf("%d")`/`isupper`/`isdigit` are
  modelled at their documented behavior for the "C" locale; `strtod` covers
  the full C99 subject-sequence forms — decimal and `0x` hexadecimal
  mantissas with their optional exponents, and the case-insensitive
  `inf`/`infinity`/`nan` spellings — with exact values (no rounding to
  `double`).
* Machine `int` arithmetic is modelled with unbounded `Int`: no verified
  property exercises an overflowing execution (overflow of a C `int` is
  undefined behavior, so the embedding fixes the UB-free semantics).
* The curses state machine of `sheets.c` is a pure step function on an
  explicit session-state record; `writecsv` appends a (path, contents) pair
  to an output log instead of touching a file system (its success path; the
  fatal `die` path on an unopenable file is an environment failure outside
  the model).
-/

/-! ## Character classification (ctype.h, "C" locale) -/

def isUpperC (c : Char) : Bool :=
  65 ≤ c.toNat && c.toNat ≤ 90

def isDigitC (c : Char) : Bool :=
  48 ≤ c.toNat && c.toNat ≤ 57

def isSpaceC (c : Char) : Bool :=
  c = ' ' || c = '\t' || c = '\n' || c = '\r' || c.toNat = 11 || c.toNat = 12

/-! ## Kernel-computable rational arithmetic

Mathlib compiles the `Rat` field operations behind `@[extern]` wrappers the
kernel does not unfold, so the embedding uses the following equivalent
operations built from `Rat.divInt` (which does reduce); the bridge lemmas
right below show each one agrees with the ordinary `ℚ` operation, and
concrete runs of the program can then be checked by `decide`. -/

def qofNat (n : Nat) : ℚ := Rat.divInt (Int.ofNat n) 1

def qadd (a b : ℚ) : ℚ :=
  Rat.divInt (a.num * (b.den : Int) + b.num * (a.den : Int))
    ((a.den : Int) * (b.den : Int))

def qneg (a : ℚ) : ℚ := Rat.divInt (-a.num) (a.den : Int)

def qmul (a b : ℚ) : ℚ :=
  Rat.divInt (a.num * b.num) ((a.den : Int) * (b.den : Int))

def qdiv (a b : ℚ) : ℚ :=
  Rat.divInt (a.num * (b.den : Int)) (b.num * (a.den : Int))

def qltb (a b : ℚ) : Bool := decide (a.num * (b.den : Int) < b.num * (a.den : Int))

theorem qofNat_eq (n : Nat) : qofNat n = (n : ℚ) := by
  simp [qofNat, Rat.divInt_eq_div]

theorem qadd_eq (a b : ℚ) : qadd a b = a + b := by
  conv_rhs => rw [← Rat.num_divInt_den a, ← Rat.num_divInt_den b]
  rw [Rat.divInt_add_divInt _ _ (by exact_mod_cast a.den_nz) (by exact_mod_cast b.den_nz)]
  rfl

theorem qneg_eq (a : ℚ) : qneg a = -a := by
  rw [qneg, ← Rat.neg_divInt, Rat.num_divInt_den]

theorem qmul_eq (a b : ℚ) : qmul a b = a * b := by
  conv_rhs => rw [← Rat.num_divInt_den a, ← Rat.num_divInt_den b]
  rw [Rat.divInt_mul_divInt']
  rfl

theorem qdiv_eq (a b : ℚ) : qdiv a b = a / b := by
  conv_rhs => rw [← Rat.num_divInt_den a, ← Rat.num_divInt_den b]
  rw [Rat.divInt_div_divInt]
  rw [qdiv, Int.mul_comm (a.den : Int) b.num]

theorem qltb_iff (a b : ℚ) : qltb a b = true ↔ a < b := by
  rw [qltb, Rat.lt_def]
  simp

/-! ## Values: C doubles without rounding -/

/-- A C `double` value as the program manipulates it: an exact rational,
one of the two infinities (`HUGE_VAL` / `-HUGE_VAL`), or NaN.  Arithmetic
follows the IEEE-754 special-value rules; finite arithmetic is exact. -/
inductive Val where
  | fin : ℚ → Val
  | pinf : Val
  | ninf : Val
  | nan : Val
deriving DecidableEq, Repr

def vneg : Val → Val
  | .fin q => .fin (qneg q)
  | .pinf => .ninf
  | .ninf => .pinf
  | .nan => .nan

def vadd : Val → Val → Val
  | .nan, _ => .nan
  | _, .nan => .nan
  | .pinf, .ninf => .nan
  | .ninf, .pinf => .nan
  | .pinf, _ => .pinf
  | _, .pinf => .pinf
  | .ninf, _ => .ninf
  | _, .ninf => .ninf
  | .fin a, .fin b => .fin (qadd a b)

def vsub (a b : Val) : Val := vadd a (vneg b)

def vmul : Val → Val → Val
  | .nan, _ => .nan
  | _, .nan => .nan
  | .pinf, .pinf => .pinf
  | .pinf, .ninf => .ninf
  | .ninf, .pinf => .ninf
  | .ninf, .ninf => .pinf
  | .pinf, .fin b => if 0 < b.num then .pinf else if b.num < 0 then .ninf else .nan
  | .ninf, .fin b => if 0 < b.num then .ninf else if b.num < 0 then .pinf else .nan
  | .fin a, .pinf => if 0 < a.num then .pinf else if a.num < 0 then .ninf else .nan
  | .fin a, .ninf => if 0 < a.num then .ninf else if a.num < 0 then .pinf else .nan
  | .fin a, .fin b => .fin (qmul a b)

def vdiv : Val → Val → Val
  | .nan, _ => .nan
  | _, .nan => .nan
  | .pinf, .pinf => .nan
  | .pinf, .ninf => .nan
  | .ninf, .pinf => .nan
  | .ninf, .ninf => .nan
  | .pinf, .fin b => if b.num < 0 then .ninf else .pinf
  | .ninf, .fin b => if b.num < 0 then .pinf else .ninf
  | .fin _, .pinf => .fin 0
  | .fin _, .ninf => .fin 0
  | .fin a, .fin b =>
      if b.num = 0 then (if a.num = 0 then .nan else if 0 < a.num then .pinf else .ninf)
      else .fin (qdiv a b)

/-- C `<` on doubles (NaN compares false against everything). -/
def vlt : Val → Val → Bool
  | .nan, _ => false
  | _, .nan => false
  | .ninf, .ninf => false
  | .ninf, _ => true
  | _, .ninf => false
  | .pinf, _ => false
  | _, .pinf => true
  | .fin a, .fin b => qltb a b

/-- C `!=` against the constant `0` on doubles (true for NaN and infinities,
and for every finite value other than zero; the model has no negative zero). -/
def vne0 (v : Val) : Bool :=
  decide (v ≠ Val.fin 0)

/-! ## Ranges of C `for` loops over `int` counters -/

/-- The values taken by `for (x = a; x <= b; x++)`: `[a, a+1, ..., b]`,
empty when `b < a`. -/
def intRange (a b : Int) : List Int :=
  (List.range (b + 1 - a).toNat).map (fun (i : Nat) => a + (i : Int))

theorem mem_intRange {a b x : Int} : x ∈ intRange a b ↔ a ≤ x ∧ x ≤ b := by
  simp only [intRange, List.mem_map, List.mem_range]
  constructor
  · rintro ⟨i, hi, rfl⟩
    omega
  · intro ⟨h1, h2⟩
    exact ⟨(x - a).toNat, by omega, by omega⟩

theorem intRange_eq_nil {a b : Int} (h : b < a) : intRange a b = [] := by
  unfold intRange
  have : (b + 1 - a).toNat = 0 := by omega
  simp [this]

theorem length_intRange (a b : Int) : (intRange a b).length = (b + 1 - a).toNat := by
  simp [intRange]

/-! ## eval.c : helpers -/

/-- `skipws` of `eval.c`: advance past spaces and tabs. -/
def skipws : List Char → List Char
  | c :: cs => if c = ' ' || c = '\t' then skipws cs else c :: cs
  | [] => []

/-- The accumulation loop `c = c * 26 + (*s - 'A' + 1)` over the leading
uppercase run. -/
def upperAcc : Int → List Char → Int × List Char
  | acc, c :: cs =>
      if isUpperC c then upperAcc (acc * 26 + ((c.toNat : Int) - 65 + 1)) cs
      else (acc, c :: cs)
  | acc, [] => (acc, [])

/-- The accumulation loop `r = r * 10 + (*s - '0')` over the leading digit
run. -/
def digitAcc : Int → List Char → Int × List Char
  | acc, c :: cs =>
      if isDigitC c then digitAcc (acc * 10 + ((c.toNat : Int) - 48)) cs
      else (acc, c :: cs)
  | acc, [] => (acc, [])

/-- `parse_cellref` of `eval.c`: one or more uppercase letters then one or
more digits; yields (0-based column, 0-based row, rest).  On failure the
input position is unchanged (`none`). -/
def parse_cellref (s : List Char) : Option (Int × Int × List Char) :=
  match s with
  | c :: _ =>
      if isUpperC c then
        match upperAcc 0 s with
        | (cv, d :: rest1) =>
            if isDigitC d then
              some (cv - 1, (digitAcc 0 (d :: rest1)).1 - 1,
                    (digitAcc 0 (d :: rest1)).2)
            else none
        | (_, []) => none
      else none
  | [] => none

/-- Decimal digits, most significant first; structural on a fuel bound
(`fuel > n` always suffices since `n / 10 < n` for `n ≥ 10`). -/
def natDigitsF : Nat → Nat → List Char
  | 0, _ => []
  | fuel + 1, n =>
      if n < 10 then [Nat.digitChar n]
      else natDigitsF fuel (n / 10) ++ [Nat.digitChar (n % 10)]

/-- Decimal digits of `n`, most significant first (the digits `printf "%d"`
emits for a non-negative value). -/
def natDigits (n : Nat) : List Char :=
  natDigitsF (n + 1) n

/-- `printf "%d"` for an `int`. -/
def intDec (i : Int) : List Char :=
  if i < 0 then '-' :: natDigits (-i).toNat else natDigits i.toNat

/-- The cell-lookup callback type of `eval.h` (`CellValFn`): address string
in, value out together with the validity flag written through `ok`. -/
def CellFn : Type := String → Val × Bool

/-- `getcellval` of `eval.c`: format the address as `snprintf "%c%d"` does
and query the callback; an invalid lookup reads as `0`. -/
def getcellval (fn : CellFn) (col row : Int) : Val :=
  let addr : String := ⟨Char.ofNat (65 + col).toNat :: intDec (row + 1)⟩
  let p := fn addr
  if p.2 then p.1 else .fin 0

/-- The row-major list of (row, column) pairs the two nested loops of
`eval_range` visit: `r` from `r1` to `r2`, `c` from `c1` to `c2`, both
inclusive and in the given order (empty when a bound is inverted). -/
def rangeCells (c1 r1 c2 r2 : Int) : List (Int × Int) :=
  (intRange r1 r2).flatMap (fun r => (intRange c1 c2).map (fun c => (r, c)))

/-- `eval_range` of `eval.c`: SUM/AVG/MIN/MAX (and any other name: a plain
sum) over the rectangle scanned by `rangeCells`. -/
def eval_range (fn : CellFn) (func : String) (c1 r1 c2 r2 : Int) : Val :=
  let ismin := func = "MIN"
  let ismax := func = "MAX"
  let init : Val := if ismin then .pinf else if ismax then .ninf else .fin 0
  let step : Val → Int × Int → Val := fun result rc =>
    let v := getcellval fn rc.2 rc.1
    if ismin && vlt v result then v
    else if ismax && vlt result v then v
    else if !ismin && !ismax then vadd result v
    else result
  let result := (rangeCells c1 r1 c2 r2).foldl step init
  let count : Nat := (rangeCells c1 r1 c2 r2).length
  if func = "AVG" && decide (0 < count) then vdiv result (.fin (qofNat count)) else result

/-! ## libc strtod -/

/-- Value of a digit string read most-significant first. -/
def digitsValN (l : List Char) : Nat :=
  l.foldl (fun a c => a * 10 + (c.toNat - 48)) 0

/-- `10^e` for a possibly negative exponent. -/
def qpow10 (e : Int) : ℚ :=
  if 0 ≤ e then qofNat (10 ^ e.toNat) else Rat.divInt 1 (Int.ofNat (10 ^ (-e).toNat))

/-- `2^e` for a possibly negative exponent (the hex-float binary exponent). -/
def qpow2 (e : Int) : ℚ :=
  if 0 ≤ e then qofNat (2 ^ e.toNat) else Rat.divInt 1 (Int.ofNat (2 ^ (-e).toNat))

/-- Hexadecimal digit, as `isxdigit` in the C locale. -/
def isHexDigitC (c : Char) : Bool :=
  (48 ≤ c.toNat && c.toNat ≤ 57) || (97 ≤ c.toNat && c.toNat ≤ 102) ||
    (65 ≤ c.toNat && c.toNat ≤ 70)

/-- Value of one hexadecimal digit. -/
def hexVal (c : Char) : Nat :=
  if 48 ≤ c.toNat && c.toNat ≤ 57 then c.toNat - 48
  else if 97 ≤ c.toNat && c.toNat ≤ 102 then c.toNat - 87
  else c.toNat - 55

/-- Value of a hex-digit string read most-significant first. -/
def digitsValH (l : List Char) : Nat :=
  l.foldl (fun a c => a * 16 + hexVal c) 0

/-- ASCII lower-casing, as `tolower` in the C locale, for the
case-insensitive `INF`/`NAN` spellings. -/
def lowerC (c : Char) : Char :=
  if 65 ≤ c.toNat && c.toNat ≤ 90 then Char.ofNat (c.toNat + 32) else c

/-- A character of the `n-char-sequence` allowed inside `nan(...)`:
digits, letters and underscore. -/
def nanSeqC (c : Char) : Bool :=
  isDigitC c || isUpperC c || (97 ≤ c.toNat && c.toNat ≤ 122) || c = '_'

/-- Optional sign before a `strtod` mantissa. -/
def stripSign : List Char → Bool × List Char
  | '-' :: t => (true, t)
  | '+' :: t => (false, t)
  | s => (false, s)

/-- Optional `.digits` fraction after the integer digits. -/
def stripFrac : List Char → List Char × List Char
  | '.' :: t => (t.takeWhile isDigitC, t.dropWhile isDigitC)
  | s => ([], s)

/-- Optional `.hexdigits` fraction of a hex float. -/
def stripFracH : List Char → List Char × List Char
  | '.' :: t => (t.takeWhile isHexDigitC, t.dropWhile isHexDigitC)
  | s => ([], s)

/-- Optional `e`/`E` exponent; consumed only when at least one digit
follows the optional exponent sign, as `strtod` backtracks otherwise. -/
def stripExp : List Char → Int × List Char
  | 'e' :: '-' :: t =>
      if (t.takeWhile isDigitC).isEmpty then (0, 'e' :: '-' :: t)
      else (-(digitsValN (t.takeWhile isDigitC) : Int), t.dropWhile isDigitC)
  | 'E' :: '-' :: t =>
      if (t.takeWhile isDigitC).isEmpty then (0, 'E' :: '-' :: t)
      else (-(digitsValN (t.takeWhile isDigitC) : Int), t.dropWhile isDigitC)
  | 'e' :: '+' :: t =>
      if (t.takeWhile isDigitC).isEmpty then (0, 'e' :: '+' :: t)
      else ((digitsValN (t.takeWhile isDigitC) : Int), t.dropWhile isDigitC)
  | 'E' :: '+' :: t =>
      if (t.takeWhile isDigitC).isEmpty then (0, 'E' :: '+' :: t)
      else ((digitsValN (t.takeWhile isDigitC) : Int), t.dropWhile isDigitC)
  | 'e' :: t =>
      if (t.takeWhile isDigitC).isEmpty then (0, 'e' :: t)
      else ((digitsValN (t.takeWhile isDigitC) : Int), t.dropWhile isDigitC)
  | 'E' :: t =>
      if (t.takeWhile isDigitC).isEmpty then (0, 'E' :: t)
      else ((digitsValN (t.takeWhile isDigitC) : Int), t.dropWhile isDigitC)
  | s => (0, s)

/-- Optional `p`/`P` binary exponent of a hex float; consumed only when at
least one digit follows the optional sign, as `strtod` backtracks
otherwise. -/
def stripPexp : List Char → Int × List Char
  | 'p' :: '-' :: t =>
      if (t.takeWhile isDigitC).isEmpty then (0, 'p' :: '-' :: t)
      else (-(digitsValN (t.takeWhile isDigitC) : Int), t.dropWhile isDigitC)
  | 'P' :: '-' :: t =>
      if (t.takeWhile isDigitC).isEmpty then (0, 'P' :: '-' :: t)
      else (-(digitsValN (t.takeWhile isDigitC) : Int), t.dropWhile isDigitC)
  | 'p' :: '+' :: t =>
      if (t.takeWhile isDigitC).isEmpty then (0, 'p' :: '+' :: t)
      else ((digitsValN (t.takeWhile isDigitC) : Int), t.dropWhile isDigitC)
  | 'P' :: '+' :: t =>
      if (t.takeWhile isDigitC).isEmpty then (0, 'P' :: '+' :: t)
      else ((digitsValN (t.takeWhile isDigitC) : Int), t.dropWhile isDigitC)
  | 'p' :: t =>
      if (t.takeWhile isDigitC).isEmpty then (0, 'p' :: t)
      else ((digitsValN (t.takeWhile isDigitC) : Int), t.dropWhile isDigitC)
  | 'P' :: t =>
      if (t.takeWhile isDigitC).isEmpty then (0, 'P' :: t)
      else ((digitsValN (t.takeWhile isDigitC) : Int), t.dropWhile isDigitC)
  | s => (0, s)

/-- `strtod` as C99 specifies it: optional whitespace, optional sign, then
the longest subject sequence among a decimal mantissa (digits with optional
fraction, or a fraction alone) with an `e` exponent consumed only when at
least one exponent digit follows; a `0x` hexadecimal mantissa with optional
fraction and a `p` binary exponent under the same rule (a bare `0x` with no
hex digit converts just the `0`); and the case-insensitive spellings
`inf`/`infinity` (±`HUGE_VAL`) and `nan` with an optional parenthesised
character sequence.  Values are exact (no rounding to `double`); `none`
means no conversion was performed (C leaves `end == nptr`). -/
def strtodM (s : List Char) : Option (Val × List Char) :=
  let s1 := s.dropWhile isSpaceC
  let sg := stripSign s1
  if (sg.2.take 8).map lowerC = "infinity".data then
    some (if sg.1 then Val.ninf else Val.pinf, sg.2.drop 8)
  else if (sg.2.take 3).map lowerC = "inf".data then
    some (if sg.1 then Val.ninf else Val.pinf, sg.2.drop 3)
  else if (sg.2.take 3).map lowerC = "nan".data then
    let t := sg.2.drop 3
    if t.head? = some '(' then
      if ((t.drop 1).dropWhile nanSeqC).head? = some ')' then
        some (Val.nan, ((t.drop 1).dropWhile nanSeqC).drop 1)
      else some (Val.nan, t)
    else some (Val.nan, t)
  else if (sg.2.take 2).map lowerC = ['0', 'x'] then
    let h := sg.2.drop 2
    let ipx := h.takeWhile isHexDigitC
    let frx := stripFracH (h.dropWhile isHexDigitC)
    if ipx.isEmpty && frx.1.isEmpty then some (Val.fin 0, sg.2.drop 1)
    else
      let mant : ℚ :=
        qadd (qofNat (digitsValH ipx))
          (qdiv (qofNat (digitsValH frx.1)) (qofNat (16 ^ frx.1.length)))
      let ex := stripPexp frx.2
      some (Val.fin (qmul (if sg.1 then qneg mant else mant) (qpow2 ex.1)), ex.2)
  else
    let ip := sg.2.takeWhile isDigitC
    let fr := stripFrac (sg.2.dropWhile isDigitC)
    if ip.isEmpty && fr.1.isEmpty then none
    else
      let mant : ℚ :=
        qadd (qofNat (digitsValN ip))
          (qdiv (qofNat (digitsValN fr.1)) (qofNat (10 ^ fr.1.length)))
      let ex := stripExp fr.2
      some (Val.fin (qmul (if sg.1 then qneg mant else mant) (qpow10 ex.1)), ex.2)

/-! ## eval.c : the recursive-descent parser, with fuel

Fuel is spent exactly on the calls for which the C code has consumed at
least one input character since the last spend, so fuel `length + 1`
always suffices (proved below); that is the C termination argument. -/

/-- `if (*pos == ')') pos++` -/
def dropParen : List Char → List Char
  | ')' :: t => t
  | s => s

/-- The `isupper(pos[0]) && isupper(pos[1]) && isupper(pos[2])` lookahead
guarding the function-call branch of `parse_atom`. -/
def threeUpper : List Char → Bool
  | a :: b :: c :: _ => isUpperC a && isUpperC b && isUpperC c
  | _ => false

/-- Tail of `parse_atom`: cell reference, number, or skip one unknown
character; never fails, never grows the input. -/
def atomTail (fn : CellFn) (s1 : List Char) : Val × List Char :=
  match parse_cellref s1 with
  | some (cv, rv, rest) => (getcellval fn cv rv, rest)
  | none =>
      match strtodM s1 with
      | some (v, rest) => (v, rest)
      | none =>
          match s1 with
          | [] => (.fin 0, [])
          | _ :: t => (.fin 0, t)

mutual

/-- `parse_expr` of `eval.c`. -/
def parse_expr (fn : CellFn) : Nat → List Char → Option (Val × List Char)
  | 0, _ => none
  | n + 1, s =>
      match parse_term fn n s with
      | none => none
      | some (v, r) => exprLoop fn n v r
  termination_by structural n _ => n

/-- The `for (;;)` loop of `parse_expr`: `+`/`-` chains. -/
def exprLoop (fn : CellFn) : Nat → Val → List Char → Option (Val × List Char)
  | 0, _, _ => none
  | n + 1, v, s =>
      let s1 := skipws s
      match s1 with
      | '+' :: t =>
          (match parse_term fn n t with
           | none => none
           | some (w, r) => exprLoop fn n (vadd v w) r)
      | '-' :: t =>
          (match parse_term fn n t with
           | none => none
           | some (w, r) => exprLoop fn n (vsub v w) r)
      | _ => some (v, s1)
  termination_by structural n _ _ => n

/-- `parse_term` of `eval.c`. -/
def parse_term (fn : CellFn) : Nat → List Char → Option (Val × List Char)
  | 0, _ => none
  | n + 1, s =>
      match parse_unary fn n s with
      | none => none
      | some (v, r) => termLoop fn n v r
  termination_by structural n _ => n

/-- The `for (;;)` loop of `parse_term`: `*`/`/` chains, with the
division-by-zero guard `v = (d != 0) ? v / d : 0`. -/
def termLoop (fn : CellFn) : Nat → Val → List Char → Option (Val × List Char)
  | 0, _, _ => none
  | n + 1, v, s =>
      let s1 := skipws s
      match s1 with
      | '*' :: t =>
          (match parse_unary fn n t with
           | none => none
           | some (w, r) => termLoop fn n (vmul v w) r)
      | '/' :: t =>
          (match parse_unary fn n t with
           | none => none
           | some (d, r) => termLoop fn n (if vne0 d then vdiv v d else .fin 0) r)
      | _ => some (v, s1)
  termination_by structural n _ _ => n

/-- `parse_unary` of `eval.c`: unary minus chains, then an atom. -/
def parse_unary (fn : CellFn) : Nat → List Char → Option (Val × List Char)
  | 0, _ => none
  | n + 1, s =>
      let s1 := skipws s
      match s1 with
      | '-' :: t =>
          (match parse_unary fn n t with
           | none => none
           | some (v, r) => some (vneg v, r))
      | _ => parse_atom fn n s1
  termination_by structural n _ => n

/-- `parse_atom` of `eval.c`: parenthesised expression, range-function
call, cell reference, number, or a one-character skip. -/
def parse_atom (fn : CellFn) : Nat → List Char → Option (Val × List Char)
  | 0, _ => none
  | n + 1, s =>
      let s1 := skipws s
      match s1 with
      | '(' :: t =>
          (match parse_expr fn n t with
           | none => none
           | some (v, r) => some (v, dropParen (skipws r)))
      | _ =>
          if threeUpper s1 then
            let fc := (s1.takeWhile isUpperC).take 7
            let rest := s1.drop fc.length
            let s2 := skipws rest
            match s2 with
            | '(' :: t2 =>
                let s3 := skipws t2
                (match parse_cellref s3 with
                 | some (c1, r1v, s4) =>
                     let s5 := skipws s4
                     (match s5 with
                      | ':' :: t5 =>
                          let s6 := skipws t5
                          (match parse_cellref s6 with
                           | some (c2, r2v, s7) =>
                               some (eval_range fn ⟨fc⟩ c1 r1v c2 r2v,
                                     dropParen (skipws s7))
                           | none => some (.fin 0, dropParen s6))
                      | _ => some (.fin 0, dropParen s5))
                 | none => some (.fin 0, dropParen s3))
            | _ => some (atomTail fn s1)
          else some (atomTail fn s1)
  termination_by structural n _ => n

end

/-- `eval_expr` of `eval.c`; fuel `6 * length + 6` suffices (theorem below). -/
def eval_expr (fn : CellFn) (expr : String) : Val :=
  match parse_expr fn (6 * expr.data.length + 6) expr.data with
  | some (v, _) => v
  | none => .fin 0

/-! ## Termination of the evaluator (claim C4 machinery)

Every parse function returns a suffix-no-longer-than-its-input, and fuel
`length + 1` never runs out because fuel is spent only after consuming at
least one character. -/

theorem skipws_length (s : List Char) : (skipws s).length ≤ s.length := by
  induction s with
  | nil => simp [skipws]
  | cons c cs ih =>
      rw [skipws]
      split
      · exact Nat.le_trans ih (by simp)
      · simp

theorem skipws_cons {s t : List Char} {c : Char} (h : skipws s = c :: t) :
    t.length < s.length := by
  have h2 := skipws_length s
  rw [h] at h2
  simp only [List.length_cons] at h2
  omega

theorem upperAcc_length (a : Int) (s : List Char) :
    (upperAcc a s).2.length ≤ s.length := by
  induction s generalizing a with
  | nil => simp [upperAcc]
  | cons c cs ih =>
      rw [upperAcc]
      split
      · exact Nat.le_trans (ih _) (by simp)
      · simp

theorem digitAcc_length (a : Int) (s : List Char) :
    (digitAcc a s).2.length ≤ s.length := by
  induction s generalizing a with
  | nil => simp [digitAcc]
  | cons c cs ih =>
      rw [digitAcc]
      split
      · exact Nat.le_trans (ih _) (by simp)
      · simp

theorem parse_cellref_length {s : List Char} {cv rv : Int} {r : List Char}
    (h : parse_cellref s = some (cv, rv, r)) : r.length ≤ s.length := by
  rcases s with - | ⟨c, cs⟩
  · simp [parse_cellref] at h
  · rw [parse_cellref] at h
    by_cases hu : isUpperC c = true
    · simp only [hu, if_true] at h
      rcases hup : upperAcc 0 (c :: cs) with ⟨cv1, rest⟩
      rw [hup] at h
      rcases rest with - | ⟨d, rest1⟩
      · simp at h
      · by_cases hd : isDigitC d = true
        · simp only [hd, if_true, Option.some.injEq, Prod.mk.injEq] at h
          obtain ⟨-, -, h3⟩ := h
          subst h3
          have h5 := digitAcc_length 0 (d :: rest1)
          have h6 := upperAcc_length 0 (c :: cs)
          rw [hup] at h6
          simp only [List.length_cons] at h5 h6 ⊢
          omega
        · simp [hd] at h
    · simp [hu] at h

theorem dropWhileC_length (p : Char → Bool) (l : List Char) :
    (l.dropWhile p).length ≤ l.length :=
  (List.dropWhile_suffix p).length_le

theorem stripSign_length (s : List Char) : (stripSign s).2.length ≤ s.length := by
  unfold stripSign
  split <;> simp

theorem stripFrac_length (s : List Char) : (stripFrac s).2.length ≤ s.length := by
  unfold stripFrac
  split
  · exact Nat.le_trans (dropWhileC_length _ _) (by simp)
  · simp

theorem stripFracH_length (s : List Char) : (stripFracH s).2.length ≤ s.length := by
  unfold stripFracH
  split
  · exact Nat.le_trans (dropWhileC_length _ _) (by simp)
  · simp

theorem stripExp_length (s : List Char) : (stripExp s).2.length ≤ s.length := by
  unfold stripExp
  split
  all_goals try exact Nat.le_refl _
  all_goals
    split
    · exact Nat.le_refl _
    · refine Nat.le_trans (dropWhileC_length _ _) ?_
      simp only [List.length_cons]
      omega

theorem stripPexp_length (s : List Char) : (stripPexp s).2.length ≤ s.length := by
  unfold stripPexp
  split
  all_goals try exact Nat.le_refl _
  all_goals
    split
    · exact Nat.le_refl _
    · refine Nat.le_trans (dropWhileC_length _ _) ?_
      simp only [List.length_cons]
      omega

theorem lenDropLe (k : Nat) (l : List Char) : (l.drop k).length ≤ l.length := by
  rw [List.length_drop]
  omega

theorem strtodM_length {s : List Char} {v : Val} {r : List Char}
    (h : strtodM s = some (v, r)) : r.length ≤ s.length := by
  have hbase : (stripSign (s.dropWhile isSpaceC)).2.length ≤ s.length :=
    Nat.le_trans (stripSign_length _) (dropWhileC_length _ _)
  simp only [strtodM] at h
  split_ifs at h
  all_goals first
    | exact Option.noConfusion h
    | (simp only [Option.some.injEq, Prod.mk.injEq] at h
       obtain ⟨-, h5⟩ := h
       subst h5
       first
         | exact Nat.le_trans (lenDropLe _ _) hbase
         | exact Nat.le_trans (lenDropLe _ _) (Nat.le_trans (dropWhileC_length _ _)
             (Nat.le_trans (lenDropLe _ _) (Nat.le_trans (lenDropLe _ _) hbase)))
         | exact Nat.le_trans (stripPexp_length _)
             (Nat.le_trans (stripFracH_length _)
               (Nat.le_trans (dropWhileC_length _ _)
                 (Nat.le_trans (lenDropLe _ _) hbase)))
         | exact Nat.le_trans (stripExp_length _)
             (Nat.le_trans (stripFrac_length _)
               (Nat.le_trans (dropWhileC_length _ _) hbase)))

theorem dropParen_length (s : List Char) : (dropParen s).length ≤ s.length := by
  unfold dropParen
  split <;> simp

theorem atomTail_length (fn : CellFn) (s : List Char) :
    (atomTail fn s).2.length ≤ s.length := by
  unfold atomTail
  split
  · exact parse_cellref_length (by assumption)
  · split
    · exact strtodM_length (by assumption)
    · split <;> simp_all

theorem skipws_to {s : List Char} : ∃ w, skipws s = w ∧ w.length ≤ s.length :=
  ⟨skipws s, rfl, skipws_length s⟩

/-- A parse result that exists and whose remaining input is no longer than
the input it started from. -/
def ParseOk (s : List Char) (res : Option (Val × List Char)) : Prop :=
  ∃ v r, res = some (v, r) ∧ r.length ≤ s.length

theorem parseFuelOk (fn : CellFn) :
    ∀ n : Nat,
      (∀ s : List Char, 6 * s.length + 1 ≤ n → ParseOk s (parse_atom fn n s)) ∧
      (∀ s : List Char, 6 * s.length + 2 ≤ n → ParseOk s (parse_unary fn n s)) ∧
      (∀ (v : Val) (s : List Char), 6 * s.length + 3 ≤ n →
        ParseOk s (termLoop fn n v s)) ∧
      (∀ s : List Char, 6 * s.length + 4 ≤ n → ParseOk s (parse_term fn n s)) ∧
      (∀ (v : Val) (s : List Char), 6 * s.length + 5 ≤ n →
        ParseOk s (exprLoop fn n v s)) ∧
      (∀ s : List Char, 6 * s.length + 6 ≤ n → ParseOk s (parse_expr fn n s)) := by
  intro n
  induction n with
  | zero =>
      exact ⟨fun s hs => absurd hs (by omega), fun s hs => absurd hs (by omega),
        fun v s hs => absurd hs (by omega), fun s hs => absurd hs (by omega),
        fun v s hs => absurd hs (by omega), fun s hs => absurd hs (by omega)⟩
  | succ n ih =>
      obtain ⟨ihA, ihU, ihTL, ihT, ihEL, ihE⟩ := ih
      have hA : ∀ s : List Char, 6 * s.length + 1 ≤ n + 1 →
          ParseOk s (parse_atom fn (n + 1) s) := by
        intro s hs
        simp only [parse_atom]
        obtain ⟨w, hw, hwl⟩ := skipws_to (s := s)
        rw [hw]
        split
        · rename_i t
          simp only [List.length_cons] at hwl
          obtain ⟨v, r, hre, hrl⟩ := ihE t (by omega)
          simp only [hre]
          refine ⟨v, dropParen (skipws r), rfl, ?_⟩
          have d1 := dropParen_length (skipws r)
          have d2 := skipws_length r
          omega
        · split
          · -- function-call branch
            obtain ⟨w2, hw2, hw2l⟩ :=
              skipws_to (s := w.drop ((w.takeWhile isUpperC).take 7).length)
            rw [hw2]
            have hdropl := lenDropLe ((w.takeWhile isUpperC).take 7).length w
            split
            · rename_i t2
              simp only [List.length_cons] at hw2l
              obtain ⟨w3, hw3, hw3l⟩ := skipws_to (s := t2)
              rw [hw3]
              split
              · rename_i c1 r1v s4 hpc
                have hs4 := parse_cellref_length hpc
                obtain ⟨w4, hw4, hw4l⟩ := skipws_to (s := s4)
                rw [hw4]
                split
                · rename_i t5
                  simp only [List.length_cons] at hw4l
                  obtain ⟨w5, hw5, hw5l⟩ := skipws_to (s := t5)
                  rw [hw5]
                  split
                  · rename_i c2 r2v s7 hpc2
                    have hs7 := parse_cellref_length hpc2
                    refine ⟨_, dropParen (skipws s7), rfl, ?_⟩
                    have d1 := dropParen_length (skipws s7)
                    have d2 := skipws_length s7
                    omega
                  · refine ⟨_, dropParen w5, rfl, ?_⟩
                    have d1 := dropParen_length w5
                    omega
                · refine ⟨_, dropParen w4, rfl, ?_⟩
                  have d1 := dropParen_length w4
                  omega
              · refine ⟨_, dropParen w3, rfl, ?_⟩
                have d1 := dropParen_length w3
                omega
            · refine ⟨_, (atomTail fn w).2, rfl, ?_⟩
              have d1 := atomTail_length fn w
              omega
          · refine ⟨_, (atomTail fn w).2, rfl, ?_⟩
            have d1 := atomTail_length fn w
            omega
      have hU : ∀ s : List Char, 6 * s.length + 2 ≤ n + 1 →
          ParseOk s (parse_unary fn (n + 1) s) := by
        intro s hs
        simp only [parse_unary]
        obtain ⟨w, hw, hwl⟩ := skipws_to (s := s)
        rw [hw]
        split
        · rename_i t
          simp only [List.length_cons] at hwl
          obtain ⟨u, r, hre, hrl⟩ := ihU t (by omega)
          simp only [hre]
          exact ⟨vneg u, r, rfl, by omega⟩
        · obtain ⟨u, r, hre, hrl⟩ := ihA w (by omega)
          simp only [hre]
          exact ⟨u, r, rfl, by omega⟩
      have hTL : ∀ (v : Val) (s : List Char), 6 * s.length + 3 ≤ n + 1 →
          ParseOk s (termLoop fn (n + 1) v s) := by
        intro v s hs
        simp only [termLoop]
        obtain ⟨w, hw, hwl⟩ := skipws_to (s := s)
        rw [hw]
        split
        · rename_i t
          simp only [List.length_cons] at hwl
          obtain ⟨u, r, hre, hrl⟩ := ihU t (by omega)
          simp only [hre]
          obtain ⟨u2, r2, hre2, hrl2⟩ := ihTL (vmul v u) r (by omega)
          simp only [hre2]
          exact ⟨u2, r2, rfl, by omega⟩
        · rename_i t
          simp only [List.length_cons] at hwl
          obtain ⟨u, r, hre, hrl⟩ := ihU t (by omega)
          simp only [hre]
          obtain ⟨u2, r2, hre2, hrl2⟩ :=
            ihTL (if vne0 u then vdiv v u else .fin 0) r (by omega)
          simp only [hre2]
          exact ⟨u2, r2, rfl, by omega⟩
        · exact ⟨v, w, rfl, hwl⟩
      have hT : ∀ s : List Char, 6 * s.length + 4 ≤ n + 1 →
          ParseOk s (parse_term fn (n + 1) s) := by
        intro s hs
        simp only [parse_term]
        obtain ⟨u, r, hre, hrl⟩ := ihU s (by omega)
        simp only [hre]
        obtain ⟨u2, r2, hre2, hrl2⟩ := ihTL u r (by omega)
        simp only [hre2]
        exact ⟨u2, r2, rfl, by omega⟩
      have hEL : ∀ (v : Val) (s : List Char), 6 * s.length + 5 ≤ n + 1 →
          ParseOk s (exprLoop fn (n + 1) v s) := by
        intro v s hs
        simp only [exprLoop]
        obtain ⟨w, hw, hwl⟩ := skipws_to (s := s)
        rw [hw]
        split
        · rename_i t
          simp only [List.length_cons] at hwl
          obtain ⟨u, r, hre, hrl⟩ := ihT t (by omega)
          simp only [hre]
          obtain ⟨u2, r2, hre2, hrl2⟩ := ihEL (vadd v u) r (by omega)
          simp only [hre2]
          exact ⟨u2, r2, rfl, by omega⟩
        · rename_i t
          simp only [List.length_cons] at hwl
          obtain ⟨u, r, hre, hrl⟩ := ihT t (by omega)
          simp only [hre]
          obtain ⟨u2, r2, hre2, hrl2⟩ := ihEL (vsub v u) r (by omega)
          simp only [hre2]
          exact ⟨u2, r2, rfl, by omega⟩
        · exact ⟨v, w, rfl, hwl⟩
      have hE : ∀ s : List Char, 6 * s.length + 6 ≤ n + 1 →
          ParseOk s (parse_expr fn (n + 1) s) := by
        intro s hs
        simp only [parse_expr]
        obtain ⟨u, r, hre, hrl⟩ := ihT s (by omega)
        simp only [hre]
        obtain ⟨u2, r2, hre2, hrl2⟩ := ihEL u r (by omega)
        simp only [hre2]
        exact ⟨u2, r2, rfl, by omega⟩
      exact ⟨hA, hU, hTL, hT, hEL, hE⟩

/-! ## Claim C4: the evaluator is total -/

/-- C4: The formula evaluator is total: for every input string (including
malformed ones, where unknown tokens are skipped one character at a time),
`eval_expr` terminates and returns a numeric result, never failing or
looping forever.  In the fuel embedding: linear fuel `6*length + 6` always
suffices — the parser returns `some` value without exhausting it, consuming
at most the whole input — and `eval_expr` returns that value. -/
theorem eval_expr_total (fn : CellFn) (s : String) :
    ∃ (v : Val) (rest : List Char),
      parse_expr fn (6 * s.data.length + 6) s.data = some (v, rest) ∧
      rest.length ≤ s.data.length ∧ eval_expr fn s = v := by
  obtain ⟨-, -, -, -, -, hE⟩ := parseFuelOk fn (6 * s.data.length + 6)
  obtain ⟨v, r, hre, hrl⟩ := hE s.data (by omega)
  refine ⟨v, r, hre, hrl, ?_⟩
  simp only [eval_expr, hre]

/-! ## Claim C5: division by zero yields 0 -/

/-- C5: the division guard of `parse_term` universally: WHENEVER the `/`
branch parses a divisor that evaluates to zero — in any expression, at any
depth, for any accumulated value, remaining input and cell callback — the
running value of that sub-expression is replaced by `0` and parsing simply
continues, with no error and no infinity.  In particular `1/0` evaluates to
`0` (and not to an infinity or NaN), and `(8/(2-2))+5` — a zero divisor
arising from evaluation, buried in a sub-expression — evaluates to `5`. -/
theorem div_by_zero_yields_zero :
    (∀ (fn : CellFn) (n : Nat) (v : Val) (s t : List Char) (d : Val)
        (r : List Char),
        skipws s = '/' :: t →
        parse_unary fn n t = some (d, r) →
        vne0 d = false →
        termLoop fn (n + 1) v s = termLoop fn n (Val.fin 0) r) ∧
    (∀ fn : CellFn,
        eval_expr fn "1/0" = Val.fin 0 ∧
        eval_expr fn "(8/(2-2))+5" = Val.fin 5 ∧
        eval_expr fn "1/0" ≠ Val.pinf ∧ eval_expr fn "1/0" ≠ Val.nan) := by
  constructor
  · intro fn n v s t d r h1 h2 h3
    have e1 : termLoop fn (n + 1) v s
        = (match parse_unary fn n t with
           | none => none
           | some (w, r2) =>
               termLoop fn n (if vne0 w then vdiv v w else Val.fin 0) r2) := by
      rw [termLoop, h1]
      rfl
    rw [e1, h2]
    show termLoop fn n (if vne0 d then vdiv v d else Val.fin 0) r
        = termLoop fn n (Val.fin 0) r
    rw [h3, if_neg Bool.false_ne_true]
  · intro fn
    exact ⟨rfl, rfl,
      fun h => Val.noConfusion ((rfl : eval_expr fn "1/0" = Val.fin 0).symm.trans h),
      fun h => Val.noConfusion ((rfl : eval_expr fn "1/0" = Val.fin 0).symm.trans h)⟩

/-- Witness: the division guard applied at a concrete zero division, `v = 1`
accumulated and divisor text `0` (`blankFn` reads every cell as invalid). -/
theorem div_by_zero_yields_zero_witness :
    skipws ('/' :: '0' :: []) = '/' :: '0' :: [] ∧
    parse_unary (fun _ => (Val.fin 0, false)) 7 ('0' :: [])
      = some (Val.fin 0, []) ∧
    vne0 (Val.fin 0) = false ∧
    termLoop (fun _ => (Val.fin 0, false)) 8 (Val.fin 1) ('/' :: '0' :: [])
      = termLoop (fun _ => (Val.fin 0, false)) 7 (Val.fin 0) [] ∧
    eval_expr (fun _ => (Val.fin 0, false)) "1/0" = Val.fin 0 :=
  ⟨rfl, by decide, rfl,
   div_by_zero_yields_zero.1 (fun _ => (Val.fin 0, false)) 7 (Val.fin 1)
     ('/' :: '0' :: []) ('0' :: []) (Val.fin 0) [] rfl (by decide) rfl,
   (div_by_zero_yields_zero.2 (fun _ => (Val.fin 0, false))).1⟩

/-! ## Claims C2 and C9: the eval_range rectangle -/

theorem mem_rangeCells {c1 r1 c2 r2 r c : Int} :
    (r, c) ∈ rangeCells c1 r1 c2 r2 ↔
      (r1 ≤ r ∧ r ≤ r2) ∧ c1 ≤ c ∧ c ≤ c2 := by
  simp only [rangeCells, List.mem_flatMap, List.mem_map]
  constructor
  · rintro ⟨a, ha, b, hb, hab⟩
    obtain ⟨rfl, rfl⟩ : a = r ∧ b = c := by
      exact ⟨congrArg Prod.fst hab, congrArg Prod.snd hab⟩
    exact ⟨mem_intRange.mp ha, mem_intRange.mp hb⟩
  · rintro ⟨hr, hc⟩
    exact ⟨r, mem_intRange.mpr hr, c, mem_intRange.mpr hc, rfl⟩

theorem rangeCells_nil {c1 r1 c2 r2 : Int} (h : r2 < r1 ∨ c2 < c1) :
    rangeCells c1 r1 c2 r2 = [] := by
  rcases h with h | h
  · simp [rangeCells, intRange_eq_nil h]
  · simp [rangeCells, intRange_eq_nil h]

/-- The grid that holds `1`, `2`, `3` in `A1`, `A2`, `A3` and nothing else,
presented as a cell-lookup callback. -/
def exampleFn : CellFn := fun a =>
  if a = "A1" then (Val.fin 1, true)
  else if a = "A2" then (Val.fin 2, true)
  else if a = "A3" then (Val.fin 3, true)
  else (Val.fin 0, false)

/-- C2 counterexample: `eval_range` iterates `r1..r2`/`c1..c2` exactly as
given — it never reorders the corners by min/max — so with A1=1, A2=2,
A3=3 the claim's example fails: `SUM(A1:A3)` is `6` but `SUM(A3:A1)` scans
an empty range and is `0`. -/
theorem sum_range_not_symmetric :
    eval_expr exampleFn "SUM(A1:A3)" = Val.fin 6 ∧
    eval_expr exampleFn "SUM(A3:A1)" = Val.fin 0 ∧
    eval_expr exampleFn "SUM(A3:A1)" ≠ eval_expr exampleFn "SUM(A1:A3)" := by
  refine ⟨by decide, by decide, by decide⟩

/-- C2 (amended): `SUM` accumulates the values of all cells of the
inclusive rectangle `r1..r2 × c1..c2` taken in the order the corners are
given: the scanned cell set is `{(r,c) | r1 ≤ r ≤ r2, c1 ≤ c ≤ c2}`
(inclusive in both coordinates), so when the first corner's row or column
exceeds the second's the range is empty and `SUM` yields `0` — it is not
the min/max-normalised rectangle, and `SUM(A3:A1) = 0 ≠ SUM(A1:A3)`. -/
theorem eval_range_sum_characterisation (fn : CellFn) (c1 r1 c2 r2 : Int) :
    (∀ r c : Int, (r, c) ∈ rangeCells c1 r1 c2 r2 ↔
      (r1 ≤ r ∧ r ≤ r2) ∧ c1 ≤ c ∧ c ≤ c2) ∧
    eval_range fn "SUM" c1 r1 c2 r2 =
      (rangeCells c1 r1 c2 r2).foldl
        (fun result rc => vadd result (getcellval fn rc.2 rc.1)) (Val.fin 0) ∧
    (r2 < r1 ∨ c2 < c1 → eval_range fn "SUM" c1 r1 c2 r2 = Val.fin 0) := by
  have hfold : eval_range fn "SUM" c1 r1 c2 r2 =
      (rangeCells c1 r1 c2 r2).foldl
        (fun result rc => vadd result (getcellval fn rc.2 rc.1)) (Val.fin 0) := by
    simp [eval_range]
  refine ⟨fun r c => mem_rangeCells, hfold, fun h => ?_⟩
  rw [hfold, rangeCells_nil h]
  rfl

/-- C9: `MIN` and `MAX` scan the rectangle seeded with `+∞` (`HUGE_VAL`)
resp. `-∞`, keeping the smaller resp. larger of seed and each visited
value; when the scanned range is empty (inverted corners) they return the
seed infinity itself, not `0`. -/
theorem eval_range_min_max (fn : CellFn) (c1 r1 c2 r2 : Int) :
    eval_range fn "MIN" c1 r1 c2 r2 =
      (rangeCells c1 r1 c2 r2).foldl
        (fun result rc =>
          if vlt (getcellval fn rc.2 rc.1) result then getcellval fn rc.2 rc.1
          else result) Val.pinf ∧
    eval_range fn "MAX" c1 r1 c2 r2 =
      (rangeCells c1 r1 c2 r2).foldl
        (fun result rc =>
          if vlt result (getcellval fn rc.2 rc.1) then getcellval fn rc.2 rc.1
          else result) Val.ninf ∧
    (r2 < r1 ∨ c2 < c1 →
      eval_range fn "MIN" c1 r1 c2 r2 = Val.pinf ∧
      eval_range fn "MAX" c1 r1 c2 r2 = Val.ninf ∧
      Val.pinf ≠ Val.fin 0 ∧ Val.ninf ≠ Val.fin 0) := by
  have hmin : eval_range fn "MIN" c1 r1 c2 r2 =
      (rangeCells c1 r1 c2 r2).foldl
        (fun result rc =>
          if vlt (getcellval fn rc.2 rc.1) result then getcellval fn rc.2 rc.1
          else result) Val.pinf := by
    simp [eval_range]
  have hmax : eval_range fn "MAX" c1 r1 c2 r2 =
      (rangeCells c1 r1 c2 r2).foldl
        (fun result rc =>
          if vlt result (getcellval fn rc.2 rc.1) then getcellval fn rc.2 rc.1
          else result) Val.ninf := by
    simp [eval_range]
  refine ⟨hmin, hmax, fun h => ?_⟩
  rw [hmin, hmax, rangeCells_nil h]
  exact ⟨rfl, rfl, by decide, by decide⟩

/-- Witness for the C9 theorem's empty-range hypothesis: the range
`A3:A1` (rows 2 down to 0) is empty, and `MIN`/`MAX` over it return the
infinities. -/
theorem eval_range_min_max_witness :
    eval_expr exampleFn "MIN(A3:A1)" = Val.pinf ∧
    eval_expr exampleFn "MAX(A3:A1)" = Val.ninf ∧
    eval_range exampleFn "MIN" 0 2 0 0 = Val.pinf ∧
    eval_range exampleFn "MAX" 0 2 0 0 = Val.ninf := by
  refine ⟨by decide, by decide, ?_, ?_⟩
  · exact ((eval_range_min_max exampleFn 0 2 0 0).2.2 (by omega)).1
  · exact ((eval_range_min_max exampleFn 0 2 0 0).2.2 (by omega)).2.1

/-! ## sheets.c : configuration (config.def.h) -/

def maxrows : Int := 100
def maxcols : Int := 26
def colwidth : Int := 10
def separator : Char := ','

/-! ## sheets.c : the address codec -/

/-- `colname2idx`: parse a column name to a 0-based index (`A = 0`);
`-1` when the string does not start with an uppercase letter. -/
def colname2idx (s : List Char) : Int × List Char :=
  match s with
  | c :: _ =>
      if isUpperC c then ((upperAcc 0 s).1 - 1, (upperAcc 0 s).2)
      else (-1, s)
  | [] => (-1, s)

/-- `rowstr2idx`: parse a 1-based row number to a 0-based index;
`-1` when the string does not start with a digit. -/
def rowstr2idx (s : List Char) : Int × List Char :=
  match s with
  | c :: _ =>
      if isDigitC c then ((digitAcc 0 s).1 - 1, (digitAcc 0 s).2)
      else (-1, s)
  | [] => (-1, s)

/-- `celladdr` of `sheets.c`: parse a cell address like `A1` into
0-based (row, col), requiring both components in grid bounds.  Note the
code never examines what follows the digit run. -/
def celladdr (s : List Char) : Option (Int × Int) :=
  if (colname2idx s).1 < 0 ∨ maxcols ≤ (colname2idx s).1 then none
  else
    if (rowstr2idx (colname2idx s).2).1 < 0 ∨
        maxrows ≤ (rowstr2idx (colname2idx s).2).1 then none
    else some ((rowstr2idx (colname2idx s).2).1, (colname2idx s).1)

/-- `colname` of `sheets.c`: format a 0-based column index as letters
(single letter below 26, two letters otherwise, with C integer division). -/
def colname (c : Int) : List Char :=
  if c < 26 then [Char.ofNat (65 + c).toNat]
  else [Char.ofNat (65 + Int.tdiv c 26 - 1).toNat,
        Char.ofNat (65 + Int.tmod c 26).toNat]

/-- The canonical text form of an in-bounds address: the column name the
program displays and accepts, followed by the 1-based row number as
`printf "%d"` renders it. -/
def encodeAddr (r c : Int) : List Char :=
  colname c ++ intDec (r + 1)

/-! ## sheets.c : cells, grid, recalculation -/

structure Cell where
  text : String
  val : Val
  hasval : Bool
deriving DecidableEq, Repr

def blankCell : Cell := ⟨"", Val.fin 0, false⟩

/-- The flat `cells` array, addressed by (row, col). -/
def Grid : Type := Int → Int → Cell

def blankGrid : Grid := fun _ _ => blankCell

def updGrid (g : Grid) (r c : Int) (cell : Cell) : Grid :=
  fun r2 c2 => if r2 = r ∧ c2 = c then cell else g r2 c2

/-- `cellvalfn` of `sheets.c`: the callback handed to the evaluator;
a bad address reads as invalid (hence `0` at the evaluator). -/
def cellvalfn (g : Grid) : CellFn := fun addr =>
  match celladdr addr.data with
  | none => (Val.fin 0, false)
  | some (r, c) => ((g r c).val, (g r c).hasval)

/-- The row-major visit order of `recalc` (and of the extent scans):
rows `0..maxrows-1`, columns `0..maxcols-1`. -/
def rowMajorIdx : List (Int × Int) :=
  rangeCells 0 0 (maxcols - 1) (maxrows - 1)

/-- One `recalc` visit of the cell at `p`, classifying its text against
the grid state `g` current at that moment. -/
def recalcCell (g : Grid) (p : Int × Int) : Grid :=
  if (g p.1 p.2).text.data.head? = some '=' then
    updGrid g p.1 p.2
      { g p.1 p.2 with
          val := eval_expr (cellvalfn g) (String.mk (g p.1 p.2).text.data.tail),
          hasval := true }
  else if (g p.1 p.2).text.data = [] then g
  else
    match strtodM (g p.1 p.2).text.data with
    | some (v, []) =>
        updGrid g p.1 p.2 { g p.1 p.2 with val := v, hasval := true }
    | _ => updGrid g p.1 p.2 { g p.1 p.2 with hasval := false }

def recalcGo : Grid → List (Int × Int) → Grid
  | g, [] => g
  | g, p :: ps => recalcGo (recalcCell g p) ps

/-- `recalc` of `sheets.c`: one full row-major pass. -/
def recalc (g : Grid) : Grid := recalcGo g rowMajorIdx

/-- The grid state current when the pass reaches cell (r, c): all cells
strictly before it in row-major order already recomputed. -/
def recalcBefore (g : Grid) (r c : Int) : Grid :=
  recalcGo g (rowMajorIdx.takeWhile (fun p => p ≠ (r, c)))

/-! ## sheets.c : session state -/

inductive Mode where
  | normal : Mode
  | edit : Mode
  | command : Mode
deriving DecidableEq, Repr

/-- The session state of `sheets.c`: the globals of the C file, plus a
log of (path, contents) pairs standing for the files `writecsv` wrote, and
the curses `LINES`/`COLS` environment values. -/
structure SpState where
  cells : Grid
  filename : String
  dirty : Bool
  crow : Int
  ccol : Int
  vrow : Int
  vcol : Int
  mode : Mode
  editbuf : List Char
  editpos : Nat
  cmdbuf : String
  yankbuf : String
  statusmsg : String
  running : Bool
  writes : List (String × String)
  lines : Int
  cols : Int

/-- `snprintf` into the 256-byte `statusmsg` buffer. -/
def setmsg (s : String) : String := String.mk (s.data.take 255)

/-- `cellset` of `sheets.c` (text truncated to the 256-byte cell buffer);
sets the dirty flag. -/
def cellset (st : SpState) (r c : Int) (text : String) : SpState :=
  { st with
      cells := updGrid st.cells r c ⟨String.mk (text.data.take 255), Val.fin 0, false⟩,
      dirty := true }

/-- `cellclear` of `sheets.c` (`memset` to zero); sets the dirty flag. -/
def cellclear (st : SpState) (r c : Int) : SpState :=
  { st with cells := updGrid st.cells r c blankCell, dirty := true }

/-! ## sheets.c : CSV output (writecsv) -/

/-- `lastrow` scan of `writecsv`: one past the last row holding any
non-empty cell, `0` for an empty grid. -/
def lastrowOf (g : Grid) : Int :=
  rowMajorIdx.foldl (fun acc p => if (g p.1 p.2).text ≠ "" then p.1 + 1 else acc) 0

/-- `lastcol` scan of one row of `writecsv`. -/
def lastcolOfRow (g : Grid) (r : Int) : Int :=
  (intRange 0 (maxcols - 1)).foldl
    (fun acc c => if (g r c).text ≠ "" then c + 1 else acc) 0

/-- Double every quote, as the quoted-field writer does. -/
def csvEscape (t : List Char) : List Char :=
  t.flatMap (fun ch => if ch = '"' then ['"', ch] else [ch])

/-- One field: quoted (with quotes doubled) iff it contains the separator
or a quote. -/
def csvFieldData (t : String) : List Char :=
  if separator ∈ t.data ∨ '"' ∈ t.data then '"' :: (csvEscape t.data ++ ['"'])
  else t.data

def csvRowData (g : Grid) (r : Int) : List Char :=
  List.intercalate [separator]
    ((intRange 0 (lastcolOfRow g r - 1)).map (fun c => csvFieldData (g r c).text))

/-- The bytes `writecsv` emits for the grid. -/
def gridToCsv (g : Grid) : String :=
  String.mk ((intRange 0 (lastrowOf g - 1)).flatMap (fun r => csvRowData g r ++ ['\n']))

/-- `writecsv` (success path): log the written file, clear the dirty flag. -/
def writecsv (st : SpState) (path : String) : SpState :=
  { st with writes := st.writes ++ [(path, gridToCsv st.cells)], dirty := false }

/-! ## sheets.c : viewport and key handlers -/

/-- `scrollview` of `sheets.c`: minimal viewport shift keeping the cursor
visible; never moves the cursor itself. -/
def scrollview (st : SpState) : SpState :=
  let visrows := st.lines - 2
  let viscols := Int.tdiv (st.cols - 4) colwidth
  let vrow1 := if st.crow < st.vrow then st.crow else st.vrow
  let vrow2 := if vrow1 + visrows ≤ st.crow then st.crow - visrows + 1 else vrow1
  let vcol1 := if st.ccol < st.vcol then st.ccol else st.vcol
  let vcol2 := if vcol1 + viscols ≤ st.ccol then st.ccol - viscols + 1 else vcol1
  { st with vrow := vrow2, vcol := vcol2 }

/-- `editenter` of `sheets.c`. -/
def editenter (st : SpState) (clear : Bool) : SpState :=
  if clear then
    { st with mode := Mode.edit, editbuf := [], editpos := 0, statusmsg := "" }
  else
    { st with mode := Mode.edit,
              editbuf := ((st.cells st.crow st.ccol).text.data.take 255),
              editpos := ((st.cells st.crow st.ccol).text.data.take 255).length,
              statusmsg := "" }

/-- `editconfirm` of `sheets.c`: commit the buffer, recalculate, back to
Normal mode. -/
def editconfirm (st : SpState) : SpState :=
  let st1 := cellset st st.crow st.ccol (String.mk st.editbuf)
  { st1 with cells := recalc st1.cells, mode := Mode.normal }

/-- `editcancel` of `sheets.c`. -/
def editcancel (st : SpState) : SpState :=
  { st with mode := Mode.normal, statusmsg := "" }

/-- Enter in Edit mode: commit, move down one row (clamped), rescroll.
`editconfirm` leaves `crow` untouched, so the guarded `crow++` of the C
code tests and increments the value the cursor had on entry. -/
def ekConfirm (st : SpState) : SpState :=
  scrollview
    { editconfirm st with
        crow := if st.crow < maxrows - 1 then st.crow + 1 else st.crow }

/-- Backspace in Edit mode: remove the character before the offset. -/
def ekBackspace (st : SpState) : SpState :=
  if 0 < st.editpos then
    { st with editbuf := st.editbuf.take (st.editpos - 1) ++ st.editbuf.drop st.editpos,
              editpos := st.editpos - 1 }
  else st

/-- Delete in Edit mode: remove the character at the offset. -/
def ekDelete (st : SpState) : SpState :=
  if st.editpos < st.editbuf.length then
    { st with editbuf := st.editbuf.take st.editpos ++ st.editbuf.drop (st.editpos + 1) }
  else st

/-- Printable character in Edit mode: insert at the offset. -/
def ekInsert (st : SpState) (ch : Int) : SpState :=
  if st.editbuf.length < 255 then
    { st with editbuf := st.editbuf.take st.editpos ++
                Char.ofNat ch.toNat :: st.editbuf.drop st.editpos,
              editpos := st.editpos + 1 }
  else st

/-- `editkey` of `sheets.c` (curses key codes: Enter 10/13/343, Escape 27,
Backspace 263/127/8, Delete 330, Left 260, Right 261, Home 262/Ctrl-A 1,
End 360/Ctrl-E 5, Ctrl-U 21, printable 32..126). -/
def editkey (st : SpState) (ch : Int) : SpState :=
  if ch = 10 ∨ ch = 13 ∨ ch = 343 then ekConfirm st
  else if ch = 27 then editcancel st
  else if ch = 263 ∨ ch = 127 ∨ ch = 8 then ekBackspace st
  else if ch = 330 then ekDelete st
  else if ch = 260 then
    (if 0 < st.editpos then { st with editpos := st.editpos - 1 } else st)
  else if ch = 261 then
    (if st.editpos < st.editbuf.length then { st with editpos := st.editpos + 1 } else st)
  else if ch = 262 ∨ ch = 1 then { st with editpos := 0 }
  else if ch = 360 ∨ ch = 5 then { st with editpos := st.editbuf.length }
  else if ch = 21 then { st with editbuf := [], editpos := 0 }
  else if 32 ≤ ch ∧ ch < 127 then ekInsert st ch
  else st

/-- `runcmd` of `sheets.c`.  The branch order is the C `if`/`else if`
chain; note the `strcmp(cmd, "wq") == 0` test sits after the
`cmd[0] == 'w'` test and so can never fire. -/
def runcmd (st : SpState) (cmd : String) : SpState :=
  if cmd.data.head? = some 'q' then
    if st.dirty = true ∧ (cmd.data.drop 1).head? ≠ some '!' then
      { st with statusmsg := setmsg "unsaved changes (use :q! to force)" }
    else { st with running := false }
  else if cmd.data.head? = some 'w' then
    let st1 :=
      if (cmd.data.drop 1).head? = some ' ' ∧ cmd.data.drop 2 ≠ [] then
        { st with filename := String.mk ((cmd.data.drop 2).take 511) }
      else st
    if st1.filename = "" then { st1 with statusmsg := setmsg "no filename" }
    else
      { writecsv st1 st1.filename with
          statusmsg := setmsg ("wrote " ++ st1.filename) }
  else if cmd = "wq" then
    if st.filename = "" then { st with statusmsg := setmsg "no filename" }
    else { writecsv st st.filename with running := false }
  else
    match celladdr cmd.data with
    | some (r, c) => scrollview { st with crow := r, ccol := c }
    | none => { st with statusmsg := setmsg ("unknown command: " ++ cmd) }

/-- `cmdkey` of `sheets.c`. -/
def cmdkey (st : SpState) (ch : Int) : SpState :=
  if ch = 10 ∨ ch = 13 ∨ ch = 343 then
    { runcmd st st.cmdbuf with mode := Mode.normal }
  else if ch = 27 then { st with mode := Mode.normal, statusmsg := "" }
  else if ch = 263 ∨ ch = 127 ∨ ch = 8 then
    if st.cmdbuf ≠ "" then { st with cmdbuf := String.mk st.cmdbuf.data.dropLast }
    else { st with mode := Mode.normal }
  else if 32 ≤ ch ∧ ch < 127 ∧ st.cmdbuf.length < 255 then
    { st with cmdbuf := String.mk (st.cmdbuf.data ++ [Char.ofNat ch.toNat]) }
  else st

/-- The `lastrow` scan of the `G` key (last row index holding text). -/
def lastrowUsed (g : Grid) : Int :=
  rowMajorIdx.foldl (fun acc p => if (g p.1 p.2).text ≠ "" then p.1 else acc) 0

/-- The `lastcol` scan of the `$` key. -/
def lastcolUsed (g : Grid) (r : Int) : Int :=
  (intRange 0 (maxcols - 1)).foldl
    (fun acc c => if (g r c).text ≠ "" then c else acc) 0

/-- The `q` case of `normalkey`. -/
def nkQuit (st : SpState) : SpState :=
  if st.dirty = true then
    { st with statusmsg := setmsg "unsaved changes (use :q! to force)" }
  else { st with running := false }

/-- `h`/Left (also Shift-Tab): move left, clamped at column 0. -/
def nkLeft (st : SpState) : SpState :=
  scrollview (if 0 < st.ccol then { st with ccol := st.ccol - 1 } else st)

/-- `j`/Down: move down, clamped at the last row. -/
def nkDown (st : SpState) : SpState :=
  scrollview (if st.crow < maxrows - 1 then { st with crow := st.crow + 1 } else st)

/-- `k`/Up: move up, clamped at row 0. -/
def nkUp (st : SpState) : SpState :=
  scrollview (if 0 < st.crow then { st with crow := st.crow - 1 } else st)

/-- `l`/Right (also Tab): move right, clamped at the last column. -/
def nkRight (st : SpState) : SpState :=
  scrollview (if st.ccol < maxcols - 1 then { st with ccol := st.ccol + 1 } else st)

/-- `g`: go to the top-left cell. -/
def nkTopLeft (st : SpState) : SpState :=
  scrollview { st with crow := 0, ccol := 0 }

/-- `G`: go to the last used row. -/
def nkLastRow (st : SpState) : SpState :=
  scrollview { st with crow := lastrowUsed st.cells }

/-- `0`/Home: go to column 0. -/
def nkColFirst (st : SpState) : SpState :=
  scrollview { st with ccol := 0 }

/-- `$`/End: go to the last used column of the current row. -/
def nkColLast (st : SpState) : SpState :=
  scrollview { st with ccol := lastcolUsed st.cells st.crow }

/-- PageUp: `crow -= LINES - 3`, clamped below at 0 (and only below). -/
def nkPageUp (st : SpState) : SpState :=
  scrollview
    { st with crow := if st.crow - (st.lines - 3) < 0 then 0
                      else st.crow - (st.lines - 3) }

/-- PageDown: `crow += LINES - 3`, clamped above at `maxrows - 1` (and only
above). -/
def nkPageDown (st : SpState) : SpState :=
  scrollview
    { st with crow := if maxrows ≤ st.crow + (st.lines - 3) then maxrows - 1
                      else st.crow + (st.lines - 3) }

/-- `=`: start a formula (edit mode seeded with `=`). -/
def nkFormula (st : SpState) : SpState :=
  { editenter st true with editbuf := ['='], editpos := 1 }

/-- `x`/Delete: yank then clear the current cell and recalculate. -/
def nkDeleteCell (st : SpState) : SpState :=
  let st1 := { st with yankbuf := String.mk ((st.cells st.crow st.ccol).text.data.take 255) }
  let st2 := cellclear st1 st1.crow st1.ccol
  { st2 with cells := recalc st2.cells }

/-- `y`: yank the current cell's text. -/
def nkYank (st : SpState) : SpState :=
  { st with yankbuf := String.mk ((st.cells st.crow st.ccol).text.data.take 255),
            statusmsg := setmsg "yanked" }

/-- `p`: paste the yank buffer, if non-empty, and recalculate. -/
def nkPaste (st : SpState) : SpState :=
  if st.yankbuf ≠ "" then
    let st1 := cellset st st.crow st.ccol st.yankbuf
    { st1 with cells := recalc st1.cells }
  else st

/-- `:`: enter Command mode with an empty buffer. -/
def nkCommandMode (st : SpState) : SpState :=
  { st with mode := Mode.command, cmdbuf := "" }

/-- Ctrl-S: save to the known filename, or complain. -/
def nkSave (st : SpState) : SpState :=
  if st.filename = "" then { st with statusmsg := setmsg "no filename" }
  else { writecsv st st.filename with statusmsg := setmsg ("wrote " ++ st.filename) }

/-- A digit key: start editing the cell with that digit. -/
def nkDigit (st : SpState) (ch : Int) : SpState :=
  { editenter st true with editbuf := [Char.ofNat ch.toNat], editpos := 1 }

/-- The key dispatch of `normalkey` (key codes: `q` 113, `h` 104, `j` 106,
`k` 107, `l` 108, Tab 9, Shift-Tab 353, `g` 103, `G` 71, `0` 48, `$` 36,
PageUp 339, PageDown 338, `i` 105, `=` 61, `e` 101, `x` 120, `y` 121,
`p` 112, `:` 58, Ctrl-S 19, digits 48..57; arrow/Home/End/Delete codes as
in `editkey`), after the status message has been cleared. -/
def normalkeyGo (st : SpState) (ch : Int) : SpState :=
  if ch = 113 then nkQuit st
  else if ch = 104 ∨ ch = 260 then nkLeft st
  else if ch = 106 ∨ ch = 258 then nkDown st
  else if ch = 107 ∨ ch = 259 then nkUp st
  else if ch = 108 ∨ ch = 261 then nkRight st
  else if ch = 9 then nkRight st
  else if ch = 353 then nkLeft st
  else if ch = 103 then nkTopLeft st
  else if ch = 71 then nkLastRow st
  else if ch = 48 ∨ ch = 262 then nkColFirst st
  else if ch = 36 ∨ ch = 360 then nkColLast st
  else if ch = 339 then nkPageUp st
  else if ch = 338 then nkPageDown st
  else if ch = 10 ∨ ch = 13 ∨ ch = 343 then editenter st false
  else if ch = 105 ∨ ch = 61 then
    (if ch = 61 then nkFormula st else editenter st true)
  else if ch = 101 then editenter st false
  else if ch = 120 ∨ ch = 330 then nkDeleteCell st
  else if ch = 121 then nkYank st
  else if ch = 112 then nkPaste st
  else if ch = 58 then nkCommandMode st
  else if ch = 19 then nkSave st
  else if 48 ≤ ch ∧ ch ≤ 57 then nkDigit st ch
  else st

/-- `normalkey` of `sheets.c`: first clears the status message, then
dispatches on the key. -/
def normalkey (st0 : SpState) (ch : Int) : SpState :=
  normalkeyGo { st0 with statusmsg := "" } ch

/-- The per-key dispatch of `run`. -/
def handleKey (st : SpState) (ch : Int) : SpState :=
  match st.mode with
  | Mode.edit => editkey st ch
  | Mode.command => cmdkey st ch
  | Mode.normal => normalkey st ch

/-- The `run` loop of `sheets.c` fed a list of key codes: each iteration
first checks the `running` flag, then handles one key. -/
def runKeys : SpState → List Int → SpState
  | st, [] => st
  | st, ch :: chs => if st.running then runKeys (handleKey st ch) chs else st

/-- A freshly started session on a blank grid with no filename, on a
24×80 terminal. -/
def testState : SpState where
  cells := blankGrid
  filename := ""
  dirty := false
  crow := 0
  ccol := 0
  vrow := 0
  vcol := 0
  mode := Mode.normal
  editbuf := []
  editpos := 0
  cmdbuf := ""
  yankbuf := ""
  statusmsg := ""
  running := true
  writes := []
  lines := 24
  cols := 80

/-! ## Claim C1: the `wq` command (code-bug evidence) -/

/-- The state just before confirming: Command mode, `wq` typed, a
filename known. -/
def wqState : SpState :=
  { testState with mode := Mode.command, cmdbuf := "wq", filename := "a.csv" }

/-- C1 (code-bug evidence): confirming `wq` in Command mode with a
filename known WRITES the grid but does NOT terminate the session.  The
`else if (strcmp(cmd, "wq") == 0)` branch of `runcmd` is dead code: any
command whose first character is `w` — including `wq` — is consumed by the
preceding `cmd[0] == 'w'` plain-write branch, which never clears
`running`.  Concretely: the session stays running (`running = true`, and a
following `j` key still moves the cursor, so the main loop keeps
iterating), the file is written, and the status line reads like a plain
write. -/
theorem wq_writes_but_does_not_quit :
    (cmdkey wqState 10).running = true ∧
    (cmdkey wqState 10).writes = [("a.csv", gridToCsv blankGrid)] ∧
    (cmdkey wqState 10).statusmsg = "wrote a.csv" ∧
    (cmdkey wqState 10).mode = Mode.normal ∧
    (runKeys (cmdkey wqState 10) [106]).crow = 1 := by
  refine ⟨rfl, rfl, rfl, rfl, rfl⟩

/-! ## Claim C8: quit refusal on unsaved changes -/

/-- C8: A quit action (Normal-mode `q` or Command-mode `q`) with the dirty
flag set and no force suffix is refused: the running flag is unchanged and
the "unsaved changes" status message is set; the forced `q!` command
clears `running` regardless of the dirty flag, and a quit with the dirty
flag clear also succeeds. -/
theorem quit_refusal (st : SpState) :
    (st.dirty = true →
      (normalkey st 113).running = st.running ∧
      (normalkey st 113).statusmsg = setmsg "unsaved changes (use :q! to force)" ∧
      (normalkey st 113).statusmsg ≠ "" ∧
      (runcmd st "q").running = st.running ∧
      (runcmd st "q").statusmsg = setmsg "unsaved changes (use :q! to force)" ∧
      (runcmd st "q").statusmsg ≠ "") ∧
    (runcmd st "q!").running = false ∧
    (st.dirty = false →
      (normalkey st 113).running = false ∧ (runcmd st "q").running = false) := by
  refine ⟨fun hd => ?_, ?_, fun hd => ?_⟩
  · simp [normalkey, normalkeyGo, nkQuit, runcmd, hd, setmsg]
  · simp [runcmd]
  · simp [normalkey, normalkeyGo, nkQuit, runcmd, hd]

/-- Witness for C8 at concrete states: a dirty session refuses `q` and
keeps running; `q!` and a clean `q` stop it. -/
theorem quit_refusal_witness :
    (normalkey { testState with dirty := true } 113).running = true ∧
    (normalkey { testState with dirty := true } 113).statusmsg ≠ "" ∧
    (runcmd { testState with dirty := true } "q").running = true ∧
    (runcmd { testState with dirty := true } "q!").running = false ∧
    (normalkey testState 113).running = false ∧
    (runcmd testState "q").running = false := by
  have h1 := (quit_refusal { testState with dirty := true }).1 rfl
  have h2 := (quit_refusal { testState with dirty := true }).2.1
  have h3 := (quit_refusal testState).2.2 rfl
  exact ⟨h1.1, h1.2.2.1, h1.2.2.2.1, h2, h3.1, h3.2⟩

/-- Witness for the C2 theorem's inner hypotheses at concrete corners:
membership in an ordered range, and the empty inverted range summing
to `0`. -/
theorem eval_range_sum_characterisation_witness :
    ((0 : Int), (0 : Int)) ∈ rangeCells 0 0 0 2 ∧
    eval_range exampleFn "SUM" 0 2 0 0 = Val.fin 0 := by
  refine ⟨?_, (eval_range_sum_characterisation exampleFn 0 2 0 0).2.2 (by omega)⟩
  exact ((eval_range_sum_characterisation exampleFn 0 0 0 2).1 0 0).mpr (by omega)

/-! ## Claim C10: the cursor invariant -/

/-- The invariant: the cursor addresses a cell of the grid. -/
def InBounds (st : SpState) : Prop :=
  0 ≤ st.crow ∧ st.crow < maxrows ∧ 0 ≤ st.ccol ∧ st.ccol < maxcols

instance (st : SpState) : Decidable (InBounds st) :=
  inferInstanceAs (Decidable (0 ≤ st.crow ∧ st.crow < maxrows ∧
    0 ≤ st.ccol ∧ st.ccol < maxcols))

theorem scrollview_crow (st : SpState) : (scrollview st).crow = st.crow := rfl

theorem scrollview_ccol (st : SpState) : (scrollview st).ccol = st.ccol := rfl

theorem celladdr_bounds {s : List Char} {r c : Int}
    (h : celladdr s = some (r, c)) :
    0 ≤ r ∧ r < maxrows ∧ 0 ≤ c ∧ c < maxcols := by
  unfold celladdr at h
  split at h
  · exact absurd h (by simp)
  · split at h
    · exact absurd h (by simp)
    · rename_i h1 h2
      simp only [Option.some.injEq, Prod.mk.injEq] at h
      obtain ⟨rfl, rfl⟩ := h
      omega

theorem foldl_pick_bounds {α : Type} (step : Int → α → Int) (lo hi : Int) :
    ∀ (l : List α) (acc : Int),
      (∀ (acc2 : Int) (p : α), p ∈ l →
        step acc2 p = acc2 ∨ (lo ≤ step acc2 p ∧ step acc2 p ≤ hi)) →
      lo ≤ acc → acc ≤ hi →
      lo ≤ l.foldl step acc ∧ l.foldl step acc ≤ hi := by
  intro l
  induction l with
  | nil => exact fun acc _ hl hh => ⟨hl, hh⟩
  | cons p ps ih =>
      intro acc hmem hl hh
      simp only [List.foldl_cons]
      have hrest : ∀ (acc2 : Int) (q : α), q ∈ ps →
          step acc2 q = acc2 ∨ (lo ≤ step acc2 q ∧ step acc2 q ≤ hi) :=
        fun acc2 q hq => hmem acc2 q (List.mem_cons_of_mem _ hq)
      rcases hmem acc p (List.mem_cons_self _ _) with he | ⟨hlo, hhi⟩
      · rw [he]
        exact ih acc hrest hl hh
      · exact ih _ hrest hlo hhi

theorem lastrowUsed_bounds (g : Grid) :
    0 ≤ lastrowUsed g ∧ lastrowUsed g < maxrows := by
  have h := foldl_pick_bounds
    (fun acc p => if (g p.1 p.2).text ≠ "" then p.1 else acc) 0 (maxrows - 1)
    rowMajorIdx 0
    (fun acc2 p hp => by
      by_cases hc : (g p.1 p.2).text ≠ ""
      · right
        have hm := mem_rangeCells.mp hp
        simp only [if_pos hc]
        exact ⟨hm.1.1, hm.1.2⟩
      · left
        simp only [if_neg hc])
    (le_refl 0) (by unfold maxrows; omega)
  unfold lastrowUsed
  exact ⟨h.1, by have := h.2; omega⟩

theorem lastcolUsed_bounds (g : Grid) (r : Int) :
    0 ≤ lastcolUsed g r ∧ lastcolUsed g r < maxcols := by
  have h := foldl_pick_bounds
    (fun acc c => if (g r c).text ≠ "" then c else acc) 0 (maxcols - 1)
    (intRange 0 (maxcols - 1)) 0
    (fun acc2 c hc => by
      by_cases hcc : (g r c).text ≠ ""
      · right
        simp only [if_pos hcc]
        exact mem_intRange.mp hc
      · left
        simp only [if_neg hcc])
    (le_refl 0) (by unfold maxcols; omega)
  unfold lastcolUsed
  exact ⟨h.1, by have := h.2; omega⟩

theorem inBounds_runcmd {st : SpState} (cmd : String) (h : InBounds st) :
    InBounds (runcmd st cmd) := by
  obtain ⟨h1, h2, h3, h4⟩ := h
  simp only [runcmd]
  split_ifs
  all_goals try exact ⟨h1, h2, h3, h4⟩
  split
  · rename_i r c heq
    have hb := celladdr_bounds heq
    exact ⟨hb.1, hb.2.1, hb.2.2.1, hb.2.2.2⟩
  · exact ⟨h1, h2, h3, h4⟩

/-- Projection of an explicit session-state constructor (stated as a
rewrite so that proofs never have to unify a whole state). -/
theorem mk_crow (a1 : Grid) (a2 : String) (a3 : Bool) (a4 a5 a6 a7 : Int)
    (a8 : Mode) (a9 : List Char) (a10 : Nat) (a11 a12 a13 : String) (a14 : Bool)
    (a15 : List (String × String)) (a16 a17 : Int) :
    (SpState.mk a1 a2 a3 a4 a5 a6 a7 a8 a9 a10 a11 a12 a13 a14 a15 a16 a17).crow
      = a4 := rfl

/-- Companion of `mk_crow` for the column. -/
theorem mk_ccol (a1 : Grid) (a2 : String) (a3 : Bool) (a4 a5 a6 a7 : Int)
    (a8 : Mode) (a9 : List Char) (a10 : Nat) (a11 a12 a13 : String) (a14 : Bool)
    (a15 : List (String × String)) (a16 a17 : Int) :
    (SpState.mk a1 a2 a3 a4 a5 a6 a7 a8 a9 a10 a11 a12 a13 a14 a15 a16 a17).ccol
      = a5 := rfl

theorem editconfirm_crow (st : SpState) : (editconfirm st).crow = st.crow := by
  rw [editconfirm]
  rw [mk_crow, cellset]

theorem editconfirm_ccol (st : SpState) : (editconfirm st).ccol = st.ccol := by
  rw [editconfirm]
  rw [mk_ccol, cellset]

theorem inBounds_nkQuit {st : SpState} (h : InBounds st) : InBounds (nkQuit st) := by
  obtain ⟨h1, h2, h3, h4⟩ := h
  unfold nkQuit
  split_ifs <;> exact ⟨h1, h2, h3, h4⟩

theorem inBounds_nkLeft {st : SpState} (h : InBounds st) : InBounds (nkLeft st) := by
  obtain ⟨h1, h2, h3, h4⟩ := h
  unfold nkLeft
  split_ifs <;>
    refine ⟨?_, ?_, ?_, ?_⟩ <;>
      simp only [scrollview_crow, scrollview_ccol, mk_crow, mk_ccol] <;> omega

theorem inBounds_nkDown {st : SpState} (h : InBounds st) : InBounds (nkDown st) := by
  obtain ⟨h1, h2, h3, h4⟩ := h
  unfold nkDown
  split_ifs <;>
    refine ⟨?_, ?_, ?_, ?_⟩ <;>
      simp only [scrollview_crow, scrollview_ccol, mk_crow, mk_ccol] <;> omega

theorem inBounds_nkUp {st : SpState} (h : InBounds st) : InBounds (nkUp st) := by
  obtain ⟨h1, h2, h3, h4⟩ := h
  unfold nkUp
  split_ifs <;>
    refine ⟨?_, ?_, ?_, ?_⟩ <;>
      simp only [scrollview_crow, scrollview_ccol, mk_crow, mk_ccol] <;> omega

theorem inBounds_nkRight {st : SpState} (h : InBounds st) : InBounds (nkRight st) := by
  obtain ⟨h1, h2, h3, h4⟩ := h
  unfold nkRight
  split_ifs <;>
    refine ⟨?_, ?_, ?_, ?_⟩ <;>
      simp only [scrollview_crow, scrollview_ccol, mk_crow, mk_ccol] <;> omega

theorem inBounds_nkTopLeft {st : SpState} (_h : InBounds st) :
    InBounds (nkTopLeft st) := by
  refine ⟨?_, ?_, ?_, ?_⟩ <;>
    simp only [nkTopLeft, scrollview_crow, scrollview_ccol, mk_crow, mk_ccol] <;>
    first
    | exact le_refl 0
    | decide

theorem inBounds_nkLastRow {st : SpState} (h : InBounds st) :
    InBounds (nkLastRow st) := by
  obtain ⟨h1, h2, h3, h4⟩ := h
  obtain ⟨hlr1, hlr2⟩ := lastrowUsed_bounds st.cells
  refine ⟨?_, ?_, ?_, ?_⟩ <;>
    simp only [nkLastRow, scrollview_crow, scrollview_ccol, mk_crow, mk_ccol] <;>
    omega

theorem inBounds_nkColFirst {st : SpState} (h : InBounds st) :
    InBounds (nkColFirst st) := by
  obtain ⟨h1, h2, h3, h4⟩ := h
  refine ⟨?_, ?_, ?_, ?_⟩ <;>
    simp only [nkColFirst, scrollview_crow, scrollview_ccol, mk_crow, mk_ccol] <;>
    omega

theorem inBounds_nkColLast {st : SpState} (h : InBounds st) :
    InBounds (nkColLast st) := by
  obtain ⟨h1, h2, h3, h4⟩ := h
  obtain ⟨hlc1, hlc2⟩ := lastcolUsed_bounds st.cells st.crow
  refine ⟨?_, ?_, ?_, ?_⟩ <;>
    simp only [nkColLast, scrollview_crow, scrollview_ccol, mk_crow, mk_ccol] <;>
    omega

theorem inBounds_nkPageUp {st : SpState} (hl : 3 ≤ st.lines) (h : InBounds st) :
    InBounds (nkPageUp st) := by
  obtain ⟨h1, h2, h3, h4⟩ := h
  unfold nkPageUp
  split_ifs <;>
    refine ⟨?_, ?_, ?_, ?_⟩ <;>
      simp only [scrollview_crow, scrollview_ccol, mk_crow, mk_ccol] <;> omega

theorem inBounds_nkPageDown {st : SpState} (hl : 3 ≤ st.lines) (h : InBounds st) :
    InBounds (nkPageDown st) := by
  obtain ⟨h1, h2, h3, h4⟩ := h
  have hmr : maxrows = 100 := rfl
  unfold nkPageDown
  split_ifs <;>
    refine ⟨?_, ?_, ?_, ?_⟩ <;>
      simp only [scrollview_crow, scrollview_ccol, mk_crow, mk_ccol] <;> omega

theorem inBounds_editenter {st : SpState} (clear : Bool) (h : InBounds st) :
    InBounds (editenter st clear) := by
  obtain ⟨h1, h2, h3, h4⟩ := h
  unfold editenter
  split_ifs <;> exact ⟨h1, h2, h3, h4⟩

theorem inBounds_nkFormula {st : SpState} (h : InBounds st) :
    InBounds (nkFormula st) := by
  obtain ⟨h1, h2, h3, h4⟩ := h
  refine ⟨?_, ?_, ?_, ?_⟩ <;>
    simp only [nkFormula, editenter, if_pos, mk_crow, mk_ccol] <;> omega

theorem nkDeleteCell_crow (st : SpState) : (nkDeleteCell st).crow = st.crow := by
  rw [nkDeleteCell]
  rw [mk_crow, cellclear]

theorem nkDeleteCell_ccol (st : SpState) : (nkDeleteCell st).ccol = st.ccol := by
  rw [nkDeleteCell]
  rw [mk_ccol, cellclear]

theorem inBounds_nkDeleteCell {st : SpState} (h : InBounds st) :
    InBounds (nkDeleteCell st) := by
  obtain ⟨h1, h2, h3, h4⟩ := h
  refine ⟨?_, ?_, ?_, ?_⟩
  · rw [nkDeleteCell_crow]; exact h1
  · rw [nkDeleteCell_crow]; exact h2
  · rw [nkDeleteCell_ccol]; exact h3
  · rw [nkDeleteCell_ccol]; exact h4

theorem inBounds_nkYank {st : SpState} (h : InBounds st) : InBounds (nkYank st) := by
  obtain ⟨h1, h2, h3, h4⟩ := h
  exact ⟨h1, h2, h3, h4⟩

theorem inBounds_nkPaste {st : SpState} (h : InBounds st) : InBounds (nkPaste st) := by
  obtain ⟨h1, h2, h3, h4⟩ := h
  unfold nkPaste
  split_ifs
  · refine ⟨?_, ?_, ?_, ?_⟩ <;>
      simp only [cellset, mk_crow, mk_ccol] <;> omega
  · exact ⟨h1, h2, h3, h4⟩

theorem inBounds_nkCommandMode {st : SpState} (h : InBounds st) :
    InBounds (nkCommandMode st) := by
  obtain ⟨h1, h2, h3, h4⟩ := h
  exact ⟨h1, h2, h3, h4⟩

theorem inBounds_nkSave {st : SpState} (h : InBounds st) : InBounds (nkSave st) := by
  obtain ⟨h1, h2, h3, h4⟩ := h
  unfold nkSave
  split_ifs <;> exact ⟨h1, h2, h3, h4⟩

theorem inBounds_nkDigit {st : SpState} (ch : Int) (h : InBounds st) :
    InBounds (nkDigit st ch) := by
  obtain ⟨h1, h2, h3, h4⟩ := h
  refine ⟨?_, ?_, ?_, ?_⟩ <;>
    simp only [nkDigit, editenter, if_pos, mk_crow, mk_ccol] <;> omega

set_option maxHeartbeats 2000000 in
theorem inBounds_normalkeyGo {st : SpState} (ch : Int) (hl : 3 ≤ st.lines)
    (h : InBounds st) : InBounds (normalkeyGo st ch) := by
  unfold normalkeyGo
  by_cases h1 : ch = 113
  · rw [if_pos h1]; exact inBounds_nkQuit h
  rw [if_neg h1]
  by_cases h2 : ch = 104 ∨ ch = 260
  · rw [if_pos h2]; exact inBounds_nkLeft h
  rw [if_neg h2]
  by_cases h3 : ch = 106 ∨ ch = 258
  · rw [if_pos h3]; exact inBounds_nkDown h
  rw [if_neg h3]
  by_cases h4 : ch = 107 ∨ ch = 259
  · rw [if_pos h4]; exact inBounds_nkUp h
  rw [if_neg h4]
  by_cases h5 : ch = 108 ∨ ch = 261
  · rw [if_pos h5]; exact inBounds_nkRight h
  rw [if_neg h5]
  by_cases h6 : ch = 9
  · rw [if_pos h6]; exact inBounds_nkRight h
  rw [if_neg h6]
  by_cases h7 : ch = 353
  · rw [if_pos h7]; exact inBounds_nkLeft h
  rw [if_neg h7]
  by_cases h8 : ch = 103
  · rw [if_pos h8]; exact inBounds_nkTopLeft h
  rw [if_neg h8]
  by_cases h9 : ch = 71
  · rw [if_pos h9]; exact inBounds_nkLastRow h
  rw [if_neg h9]
  by_cases h10 : ch = 48 ∨ ch = 262
  · rw [if_pos h10]; exact inBounds_nkColFirst h
  rw [if_neg h10]
  by_cases h11 : ch = 36 ∨ ch = 360
  · rw [if_pos h11]; exact inBounds_nkColLast h
  rw [if_neg h11]
  by_cases h12 : ch = 339
  · rw [if_pos h12]; exact inBounds_nkPageUp hl h
  rw [if_neg h12]
  by_cases h13 : ch = 338
  · rw [if_pos h13]; exact inBounds_nkPageDown hl h
  rw [if_neg h13]
  by_cases h14 : ch = 10 ∨ ch = 13 ∨ ch = 343
  · rw [if_pos h14]; exact inBounds_editenter false h
  rw [if_neg h14]
  by_cases h15 : ch = 105 ∨ ch = 61
  · rw [if_pos h15]
    by_cases h15a : ch = 61
    · rw [if_pos h15a]; exact inBounds_nkFormula h
    · rw [if_neg h15a]; exact inBounds_editenter true h
  rw [if_neg h15]
  by_cases h16 : ch = 101
  · rw [if_pos h16]; exact inBounds_editenter false h
  rw [if_neg h16]
  by_cases h17 : ch = 120 ∨ ch = 330
  · rw [if_pos h17]; exact inBounds_nkDeleteCell h
  rw [if_neg h17]
  by_cases h18 : ch = 121
  · rw [if_pos h18]; exact inBounds_nkYank h
  rw [if_neg h18]
  by_cases h19 : ch = 112
  · rw [if_pos h19]; exact inBounds_nkPaste h
  rw [if_neg h19]
  by_cases h20 : ch = 58
  · rw [if_pos h20]; exact inBounds_nkCommandMode h
  rw [if_neg h20]
  by_cases h21 : ch = 19
  · rw [if_pos h21]; exact inBounds_nkSave h
  rw [if_neg h21]
  by_cases h22 : 48 ≤ ch ∧ ch ≤ 57
  · rw [if_pos h22]; exact inBounds_nkDigit ch h
  rw [if_neg h22]
  exact h

theorem ekConfirm_crow (st : SpState) :
    (ekConfirm st).crow
      = if st.crow < maxrows - 1 then st.crow + 1 else st.crow := by
  rw [ekConfirm]
  rw [scrollview_crow, mk_crow]

theorem ekConfirm_ccol (st : SpState) : (ekConfirm st).ccol = st.ccol := by
  rw [ekConfirm]
  rw [scrollview_ccol, mk_ccol, editconfirm_ccol]

theorem inBounds_ekConfirm {st : SpState} (h : InBounds st) :
    InBounds (ekConfirm st) := by
  obtain ⟨h1, h2, h3, h4⟩ := h
  refine ⟨?_, ?_, ?_, ?_⟩
  · rw [ekConfirm_crow]; split_ifs <;> omega
  · rw [ekConfirm_crow]; split_ifs <;> omega
  · rw [ekConfirm_ccol]; exact h3
  · rw [ekConfirm_ccol]; exact h4

theorem inBounds_editcancel {st : SpState} (h : InBounds st) :
    InBounds (editcancel st) := h

theorem inBounds_ekBackspace {st : SpState} (h : InBounds st) :
    InBounds (ekBackspace st) := by
  unfold ekBackspace
  split_ifs <;> exact h

theorem inBounds_ekDelete {st : SpState} (h : InBounds st) :
    InBounds (ekDelete st) := by
  unfold ekDelete
  split_ifs <;> exact h

theorem inBounds_ekInsert {st : SpState} (ch : Int) (h : InBounds st) :
    InBounds (ekInsert st ch) := by
  unfold ekInsert
  split_ifs <;> exact h

theorem inBounds_editkey {st : SpState} (ch : Int) (h : InBounds st) :
    InBounds (editkey st ch) := by
  unfold editkey
  by_cases e1 : ch = 10 ∨ ch = 13 ∨ ch = 343
  · rw [if_pos e1]; exact inBounds_ekConfirm h
  rw [if_neg e1]
  by_cases e2 : ch = 27
  · rw [if_pos e2]; exact inBounds_editcancel h
  rw [if_neg e2]
  by_cases e3 : ch = 263 ∨ ch = 127 ∨ ch = 8
  · rw [if_pos e3]; exact inBounds_ekBackspace h
  rw [if_neg e3]
  by_cases e4 : ch = 330
  · rw [if_pos e4]; exact inBounds_ekDelete h
  rw [if_neg e4]
  by_cases e5 : ch = 260
  · rw [if_pos e5]; split_ifs <;> exact h
  rw [if_neg e5]
  by_cases e6 : ch = 261
  · rw [if_pos e6]; split_ifs <;> exact h
  rw [if_neg e6]
  by_cases e7 : ch = 262 ∨ ch = 1
  · rw [if_pos e7]; exact h
  rw [if_neg e7]
  by_cases e8 : ch = 360 ∨ ch = 5
  · rw [if_pos e8]; exact h
  rw [if_neg e8]
  by_cases e9 : ch = 21
  · rw [if_pos e9]; exact h
  rw [if_neg e9]
  by_cases e10 : 32 ≤ ch ∧ ch < 127
  · rw [if_pos e10]; exact inBounds_ekInsert ch h
  rw [if_neg e10]
  exact h

theorem inBounds_cmdkey {st : SpState} (ch : Int) (h : InBounds st) :
    InBounds (cmdkey st ch) := by
  unfold cmdkey
  by_cases c1 : ch = 10 ∨ ch = 13 ∨ ch = 343
  · rw [if_pos c1]
    obtain ⟨h1, h2, h3, h4⟩ := inBounds_runcmd st.cmdbuf h
    refine ⟨?_, ?_, ?_, ?_⟩
    · rw [mk_crow]; exact h1
    · rw [mk_crow]; exact h2
    · rw [mk_ccol]; exact h3
    · rw [mk_ccol]; exact h4
  rw [if_neg c1]
  by_cases c2 : ch = 27
  · rw [if_pos c2]; exact h
  rw [if_neg c2]
  by_cases c3 : ch = 263 ∨ ch = 127 ∨ ch = 8
  · rw [if_pos c3]; split_ifs <;> exact h
  rw [if_neg c3]
  by_cases c4 : 32 ≤ ch ∧ ch < 127 ∧ st.cmdbuf.length < 255
  · rw [if_pos c4]; exact h
  rw [if_neg c4]
  exact h

theorem inBounds_normalkey {st : SpState} (ch : Int) (hl : 3 ≤ st.lines)
    (h : InBounds st) : InBounds (normalkey st ch) := by
  unfold normalkey
  exact inBounds_normalkeyGo ch hl h

/-! ## Claim C10: the cursor stays inside the grid -/

/-- C10 (amended with the terminal-height hypothesis): on a terminal with
at least 3 lines, every key handled in every mode — Normal-mode movement,
page and cell-editing keys, Edit-mode keys including confirm-via-newline,
and Command-mode keys including the goto command — keeps the cursor inside
the grid: `0 ≤ crow < maxrows` and `0 ≤ ccol < maxcols`. -/
theorem cursor_stays_in_bounds {st : SpState} (ch : Int) (hl : 3 ≤ st.lines)
    (h : InBounds st) : InBounds (handleKey st ch) := by
  unfold handleKey
  cases hm : st.mode
  · exact inBounds_normalkey ch hl h
  · exact inBounds_editkey ch h
  · exact inBounds_cmdkey ch h

/-- A fresh session on a 2-line terminal (`LINES = 2`), cursor at A1. -/
def tinyTermState : SpState := { testState with lines := 2 }

/-- Counterexample to the unconditional C10: on a terminal with fewer than
3 lines, `visrows = LINES - 3` is negative, so PageDown (`KEY_NPAGE`,
code 338) moves the cursor UP by one row from row 0 to row −1; the code
only clamps against `crow >= maxrows`, never against `crow < 0`, so the
cursor leaves the grid. -/
theorem pagedown_escapes_grid_on_tiny_terminal :
    InBounds tinyTermState ∧ ¬ InBounds (handleKey tinyTermState 338) := by
  constructor
  · decide
  · decide

/-- Witness: on the 24-line test terminal the invariant theorem applies at
the PageDown key. -/
theorem cursor_stays_in_bounds_witness :
    (3 : Int) ≤ testState.lines ∧ InBounds testState ∧
      InBounds (handleKey testState 338) :=
  ⟨by decide, by decide, cursor_stays_in_bounds 338 (by decide) (by decide)⟩

/-! ## Claim C3: the shape accepted by the address decoder -/

theorem upperAcc_eq (s : List Char) (a : Int) :
    upperAcc a s =
      ((s.takeWhile isUpperC).foldl
         (fun b ch => b * 26 + ((ch.toNat : Int) - 65 + 1)) a,
       s.dropWhile isUpperC) := by
  induction s generalizing a with
  | nil => rfl
  | cons c t ih =>
      cases hc : isUpperC c
      · simp [upperAcc, hc]
      · simp [upperAcc, hc, ih]

theorem digitAcc_eq (s : List Char) (a : Int) :
    digitAcc a s =
      ((s.takeWhile isDigitC).foldl
         (fun b ch => b * 10 + ((ch.toNat : Int) - 48)) a,
       s.dropWhile isDigitC) := by
  induction s generalizing a with
  | nil => rfl
  | cons c t ih =>
      cases hc : isDigitC c
      · simp [digitAcc, hc]
      · simp [digitAcc, hc, ih]

theorem colname2idx_fst (s : List Char) :
    (colname2idx s).1 =
      (s.takeWhile isUpperC).foldl
        (fun b ch => b * 26 + ((ch.toNat : Int) - 65 + 1)) 0 - 1 := by
  cases s with
  | nil => rfl
  | cons c t => cases hc : isUpperC c <;> simp [colname2idx, hc, upperAcc_eq]

theorem colname2idx_snd (s : List Char) :
    (colname2idx s).2 = s.dropWhile isUpperC := by
  cases s with
  | nil => rfl
  | cons c t => cases hc : isUpperC c <;> simp [colname2idx, hc, upperAcc_eq]

theorem rowstr2idx_fst (s : List Char) :
    (rowstr2idx s).1 =
      (s.takeWhile isDigitC).foldl
        (fun b ch => b * 10 + ((ch.toNat : Int) - 48)) 0 - 1 := by
  cases s with
  | nil => rfl
  | cons c t => cases hc : isDigitC c <;> simp [rowstr2idx, hc, digitAcc_eq]

/-- Decoder written from the (amended) specification words, for comparison
with the code's `celladdr`: the string must BEGIN with one or more
uppercase letters immediately followed by one or more digits; the column
is the base-26 value of the letter run (A = 1) minus one, the row the
decimal value of the digit run minus one, both required in grid bounds;
whatever follows the digit run is ignored. -/
def celladdrSpec (s : List Char) : Option (Int × Int) :=
  let letters := s.takeWhile isUpperC
  let digits := (s.dropWhile isUpperC).takeWhile isDigitC
  if letters = [] ∨ digits = [] then none
  else
    let c := letters.foldl (fun b ch => b * 26 + ((ch.toNat : Int) - 65 + 1)) 0 - 1
    let r := digits.foldl (fun b ch => b * 10 + ((ch.toNat : Int) - 48)) 0 - 1
    if 0 ≤ c ∧ c < maxcols ∧ 0 ≤ r ∧ r < maxrows then some (r, c) else none

/-- C3 (amended): `celladdr` behaves exactly like the prefix decoder
`celladdrSpec`: one or more leading uppercase letters immediately followed
by one or more digits, both decoded values in grid bounds — but anything
after the digit run is IGNORED rather than rejected. -/
theorem celladdr_eq_celladdrSpec (s : List Char) :
    celladdr s = celladdrSpec s := by
  unfold celladdr celladdrSpec
  rw [colname2idx_fst, colname2idx_snd, rowstr2idx_fst]
  by_cases hL : s.takeWhile isUpperC = []
  · rw [hL]
    simp
  · by_cases hD : (s.dropWhile isUpperC).takeWhile isDigitC = []
    · rw [hD]
      simp only [List.foldl_nil]
      split_ifs <;> simp_all
    · simp only [hL, hD, or_self, if_neg, not_or]
      split_ifs <;> simp_all <;> omega

/-- Counterexample to the original C3: the decoder never looks past the
digit run, so `"A1x"` — which has trailing characters after the digits —
is ACCEPTED and decodes to cell A1 instead of failing. -/
theorem celladdr_accepts_trailing_garbage :
    celladdr ('A' :: '1' :: 'x' :: []) = some (0, 0) := by decide

/-! ## Claim C7: decode after encode is the identity -/

/-- C7: for every in-bounds (row, col) pair of the configured 100×26 grid,
decoding the canonical text form produced by `colname` plus the 1-based
decimal row number returns the same pair:
`celladdr (encodeAddr r c) = some (r, c)`.  Checked over the whole domain. -/
theorem decode_encode_roundtrip :
    ∀ r : Nat, r < Int.toNat maxrows → ∀ c : Nat, c < Int.toNat maxcols →
      celladdr (encodeAddr (r : Int) (c : Int)) = some ((r : Int), (c : Int)) := by
  decide

/-- Witness: the roundtrip theorem applied at cell B3 (row 2, column 1). -/
theorem decode_encode_roundtrip_witness :
    2 < Int.toNat maxrows ∧ 1 < Int.toNat maxcols ∧
      celladdr (encodeAddr ((2 : Nat) : Int) ((1 : Nat) : Int))
        = some (((2 : Nat) : Int), ((1 : Nat) : Int)) :=
  ⟨by decide, by decide, decode_encode_roundtrip 2 (by decide) 1 (by decide)⟩

/-! ## Claim C6: classification of cells by a recalculation pass -/

theorem intRange_nodup (a b : Int) : (intRange a b).Nodup := by
  unfold intRange
  refine List.Nodup.map ?_ (List.nodup_range _)
  intro i j hij
  dsimp only at hij
  omega

theorem rangeCells_nodup (c1 r1 c2 r2 : Int) : (rangeCells c1 r1 c2 r2).Nodup := by
  unfold rangeCells
  rw [List.nodup_flatMap]
  constructor
  · intro r _
    refine List.Nodup.map ?_ (intRange_nodup _ _)
    intro x y hxy
    exact congrArg Prod.snd hxy
  · refine List.Pairwise.imp ?_ (intRange_nodup r1 r2)
    intro a b hab
    intro x hx1 hx2
    simp only [Function.onFun, List.mem_map] at hx1 hx2
    obtain ⟨ca, _, hca⟩ := hx1
    obtain ⟨cb, _, hcb⟩ := hx2
    exact hab (congrArg Prod.fst (hca.trans hcb.symm))

theorem dropWhile_ne_first (p : Int × Int) :
    ∀ l : List (Int × Int), p ∈ l →
      ∃ t, l.dropWhile (fun q => q ≠ p) = p :: t := by
  intro l hp
  induction l with
  | nil => cases hp
  | cons a t ih =>
      by_cases ha : a = p
      · subst ha
        exact ⟨t, by rw [List.dropWhile_cons_of_neg (by simp)]⟩
      · rcases List.mem_cons.mp hp with rfl | hp2
        · exact absurd rfl ha
        · obtain ⟨t2, ht2⟩ := ih hp2
          exact ⟨t2, by rw [List.dropWhile_cons_of_pos (by simpa using ha), ht2]⟩

theorem recalcGo_append (l1 l2 : List (Int × Int)) :
    ∀ g : Grid, recalcGo g (l1 ++ l2) = recalcGo (recalcGo g l1) l2 := by
  induction l1 with
  | nil => intro g; rfl
  | cons p ps ih =>
      intro g
      simp only [List.cons_append, recalcGo]
      exact ih _

theorem updGrid_text (g : Grid) (r0 c0 : Int) (cl : Cell) (r c : Int)
    (h : cl.text = (g r0 c0).text) :
    ((updGrid g r0 c0 cl) r c).text = (g r c).text := by
  unfold updGrid
  split_ifs with hrc
  · obtain ⟨rfl, rfl⟩ := hrc
    exact h
  · rfl

theorem updGrid_other (g : Grid) (r0 c0 : Int) (cl : Cell) (r c : Int)
    (h : ¬(r = r0 ∧ c = c0)) : (updGrid g r0 c0 cl) r c = g r c := by
  unfold updGrid
  exact if_neg h

theorem recalcCell_text (g : Grid) (p : Int × Int) (r c : Int) :
    ((recalcCell g p) r c).text = (g r c).text := by
  unfold recalcCell
  split_ifs
  · exact updGrid_text g p.1 p.2 _ r c rfl
  · rfl
  · rcases hstr : strtodM (g p.1 p.2).text.data with _ | ⟨q, _ | ⟨ch, rest2⟩⟩ <;>
      exact updGrid_text g p.1 p.2 _ r c rfl

theorem recalcCell_other (g : Grid) (p : Int × Int) (r c : Int)
    (h : ¬(r = p.1 ∧ c = p.2)) : (recalcCell g p) r c = g r c := by
  unfold recalcCell
  split_ifs
  · exact updGrid_other g p.1 p.2 _ r c h
  · rfl
  · rcases hstr : strtodM (g p.1 p.2).text.data with _ | ⟨q, _ | ⟨ch, rest2⟩⟩ <;>
      exact updGrid_other g p.1 p.2 _ r c h

theorem recalcGo_text (r c : Int) :
    ∀ (l : List (Int × Int)) (g : Grid),
      ((recalcGo g l) r c).text = (g r c).text := by
  intro l
  induction l with
  | nil => intro g; rfl
  | cons p ps ih =>
      intro g
      simp only [recalcGo]
      rw [ih, recalcCell_text]

theorem recalcGo_notMem (r c : Int) :
    ∀ (l : List (Int × Int)) (g : Grid), (r, c) ∉ l →
      (recalcGo g l) r c = g r c := by
  intro l
  induction l with
  | nil => intro g _; rfl
  | cons p ps ih =>
      intro g hm
      simp only [recalcGo]
      rw [ih _ (fun hx => hm (List.mem_cons_of_mem _ hx))]
      refine recalcCell_other g p r c (fun he => hm ?_)
      obtain ⟨he1, he2⟩ := he
      have : (r, c) = p := by rw [he1, he2]
      exact this ▸ List.mem_cons_self _ _

theorem updGrid_self (g : Grid) (r c : Int) (cl : Cell) :
    (updGrid g r c cl) r c = cl := by
  unfold updGrid
  exact if_pos ⟨rfl, rfl⟩

theorem recalcCell_empty_id (g : Grid) (p : Int × Int)
    (hd : (g p.1 p.2).text.data = []) : recalcCell g p = g := by
  have h1 : ¬((g p.1 p.2).text.data.head? = some '=') := by
    rw [hd]
    simp
  unfold recalcCell
  rw [if_neg h1, if_pos hd]

theorem recalcCell_emptyInv (g : Grid) (p : Int × Int)
    (hinv : ∀ r c, (g r c).text.data = [] → (g r c).hasval = false) :
    ∀ r c, ((recalcCell g p) r c).text.data = [] →
      ((recalcCell g p) r c).hasval = false := by
  intro r c hempty
  have hold : (g r c).text.data = [] := by
    rw [recalcCell_text] at hempty
    exact hempty
  by_cases hrc : r = p.1 ∧ c = p.2
  · obtain ⟨rfl, rfl⟩ := hrc
    rw [recalcCell_empty_id g p hold]
    exact hinv _ _ hold
  · rw [recalcCell_other g p r c hrc]
    exact hinv r c hold

theorem recalcGo_emptyInv :
    ∀ (l : List (Int × Int)) (g : Grid),
      (∀ r c, (g r c).text.data = [] → (g r c).hasval = false) →
      ∀ r c, ((recalcGo g l) r c).text.data = [] →
        ((recalcGo g l) r c).hasval = false := by
  intro l
  induction l with
  | nil => intro g h; exact h
  | cons p ps ih =>
      intro g h
      simp only [recalcGo]
      exact ih _ (recalcCell_emptyInv g p h)

theorem recalcCell_at_formula (g : Grid) (r c : Int) (rest : List Char)
    (hd : (g r c).text.data = '=' :: rest) :
    (recalcCell g (r, c)) r c
      = { g r c with val := eval_expr (cellvalfn g) (String.mk rest),
                     hasval := true } := by
  have h1 : (g (r, c).1 (r, c).2).text.data.head? = some '=' := by
    show (g r c).text.data.head? = some '='
    rw [hd]
    rfl
  have htail : (g r c).text.data.tail = rest := by
    rw [hd]
    rfl
  rw [← htail]
  unfold recalcCell
  rw [if_pos h1]
  exact updGrid_self g r c _

theorem recalcCell_at_numeric (g : Grid) (r c : Int) (v : Val)
    (hhd : (g r c).text.data.head? ≠ some '=')
    (hne : (g r c).text.data ≠ [])
    (hs : strtodM (g r c).text.data = some (v, [])) :
    (recalcCell g (r, c)) r c
      = { g r c with val := v, hasval := true } := by
  have hhd2 : ¬((g (r, c).1 (r, c).2).text.data.head? = some '=') := hhd
  have hne2 : ¬((g (r, c).1 (r, c).2).text.data = []) := hne
  have hs2 : strtodM (g (r, c).1 (r, c).2).text.data = some (v, []) := hs
  unfold recalcCell
  rw [if_neg hhd2, if_neg hne2, hs2]
  exact updGrid_self g r c _

theorem recalcCell_at_other (g : Grid) (r c : Int)
    (hhd : (g r c).text.data.head? ≠ some '=')
    (hne : (g r c).text.data ≠ [])
    (hs : ∀ w, strtodM (g r c).text.data ≠ some (w, [])) :
    (recalcCell g (r, c)) r c = { g r c with hasval := false } := by
  have hhd2 : ¬((g (r, c).1 (r, c).2).text.data.head? = some '=') := hhd
  have hne2 : ¬((g (r, c).1 (r, c).2).text.data = []) := hne
  unfold recalcCell
  rw [if_neg hhd2, if_neg hne2]
  rcases hstr : strtodM (g (r, c).1 (r, c).2).text.data with _ | ⟨q2, _ | ⟨ch, rest2⟩⟩
  · exact updGrid_self g r c _
  · exact absurd hstr (hs q2)
  · exact updGrid_self g r c _

theorem recalc_visit (g : Grid) (r c : Int)
    (hr1 : 0 ≤ r) (hr2 : r < maxrows) (hc1 : 0 ≤ c) (hc2 : c < maxcols) :
    (recalc g) r c = (recalcCell (recalcBefore g r c) (r, c)) r c := by
  have hmem : (r, c) ∈ rowMajorIdx := by
    unfold rowMajorIdx
    exact mem_rangeCells.mpr ⟨⟨hr1, by omega⟩, hc1, by omega⟩
  obtain ⟨t, ht⟩ := dropWhile_ne_first (r, c) rowMajorIdx hmem
  have hnd : rowMajorIdx.Nodup := rangeCells_nodup _ _ _ _
  have hsuffix : rowMajorIdx.dropWhile (fun q => q ≠ (r, c)) <:+ rowMajorIdx :=
    List.dropWhile_suffix _
  have hcons : ((r, c) :: t).Nodup := (ht ▸ hsuffix.sublist).nodup hnd
  have hnotmem : (r, c) ∉ t := (List.nodup_cons.mp hcons).1
  have hsplit : recalcGo g rowMajorIdx
      = recalcGo g (rowMajorIdx.takeWhile (fun q => q ≠ (r, c)) ++ (r, c) :: t) := by
    rw [← ht, List.takeWhile_append_dropWhile]
  show (recalcGo g rowMajorIdx) r c = _
  rw [hsplit, recalcGo_append]
  simp only [recalcGo]
  exact recalcGo_notMem r c t _ hnotmem

theorem head_ne_eq_of_no_formula {l : List Char} (h : ∀ rest, l ≠ '=' :: rest) :
    l.head? ≠ some '=' := by
  intro hh
  cases l with
  | nil => exact Option.noConfusion hh
  | cons a t =>
      have ha : a = '=' := by simpa using hh
      exact h t (by rw [ha])

/-- C6 (amended): after a full recalculation pass, every in-bounds cell is
classified by its (unchanged) text: a `=`-prefixed formula gains `hasval`
and the evaluator's value of the remainder (cell references resolving
against the in-pass grid `recalcBefore`, cells earlier in row-major order
already recomputed); non-empty text that `strtod` converts entirely — in
any of its C99 forms: decimal, `0x` hexadecimal, `inf`/`infinity`/`nan`,
not only the decimal numbers of the original claim — gains `hasval` and
the converted value; non-empty text that does not convert entirely loses
`hasval`; empty text keeps `hasval = false`, granted the invariant — true
of every reachable grid — that empty cells start without a value (the C
code leaves empty cells untouched). -/
theorem recalc_classification (g : Grid) (r c : Int)
    (hr1 : 0 ≤ r) (hr2 : r < maxrows) (hc1 : 0 ≤ c) (hc2 : c < maxcols)
    (hinv : ∀ r0 c0, (g r0 c0).text.data = [] → (g r0 c0).hasval = false) :
    ((recalc g) r c).text = (g r c).text ∧
    (∀ rest, (g r c).text.data = '=' :: rest →
        ((recalc g) r c).hasval = true ∧
        ((recalc g) r c).val
          = eval_expr (cellvalfn (recalcBefore g r c)) (String.mk rest)) ∧
    (∀ v, (∀ rest, (g r c).text.data ≠ '=' :: rest) →
        strtodM (g r c).text.data = some (v, []) →
        ((recalc g) r c).hasval = true ∧ ((recalc g) r c).val = v) ∧
    ((g r c).text.data ≠ [] → (∀ rest, (g r c).text.data ≠ '=' :: rest) →
        (∀ v, strtodM (g r c).text.data ≠ some (v, [])) →
        ((recalc g) r c).hasval = false) ∧
    ((g r c).text.data = [] → ((recalc g) r c).hasval = false) := by
  have hv := recalc_visit g r c hr1 hr2 hc1 hc2
  have htext : ((recalcBefore g r c) r c).text = (g r c).text :=
    recalcGo_text r c _ g
  refine ⟨recalcGo_text r c rowMajorIdx g, ?_, ?_, ?_, ?_⟩
  · intro rest hd
    have hdG : ((recalcBefore g r c) r c).text.data = '=' :: rest := by
      rw [htext]
      exact hd
    rw [hv, recalcCell_at_formula _ r c rest hdG]
    exact ⟨rfl, rfl⟩
  · intro v2 hnohd hs
    have hne : (g r c).text.data ≠ [] := by
      intro h0
      rw [h0] at hs
      exact Option.noConfusion hs
    have hhdG : ((recalcBefore g r c) r c).text.data.head? ≠ some '=' := by
      rw [htext]
      exact head_ne_eq_of_no_formula hnohd
    have hneG : ((recalcBefore g r c) r c).text.data ≠ [] := by
      rw [htext]
      exact hne
    have hsG : strtodM ((recalcBefore g r c) r c).text.data = some (v2, []) := by
      rw [htext]
      exact hs
    rw [hv, recalcCell_at_numeric _ r c v2 hhdG hneG hsG]
    exact ⟨rfl, rfl⟩
  · intro hne hnohd hs
    have hhdG : ((recalcBefore g r c) r c).text.data.head? ≠ some '=' := by
      rw [htext]
      exact head_ne_eq_of_no_formula hnohd
    have hneG : ((recalcBefore g r c) r c).text.data ≠ [] := by
      rw [htext]
      exact hne
    have hsG : ∀ w, strtodM ((recalcBefore g r c) r c).text.data ≠ some (w, []) := by
      intro w
      rw [htext]
      exact hs w
    rw [hv, recalcCell_at_other _ r c hhdG hneG hsG]
  · intro hd
    have hdG : ((recalcBefore g r c) r c).text.data = [] := by
      rw [htext]
      exact hd
    rw [hv, recalcCell_empty_id _ (r, c) hdG]
    exact recalcGo_emptyInv _ g hinv r c hdG

/-- A blank grid whose cell A1 holds the text `inf`. -/
def infGrid : Grid := updGrid blankGrid 0 0 ⟨"inf", Val.fin 0, false⟩

/-- Counterexample to the original C6: the cell text `inf` is non-empty,
not `=`-prefixed and not a decimal number, so the original claim places it
in the `hasValue = false` branch — but `strtod` fully converts the C99
spelling `inf`, so the recalculation pass sets `hasval` and stores
`HUGE_VAL` (`+∞`). -/
theorem recalc_accepts_inf :
    (infGrid 0 0).text = "inf" ∧
    ((recalc infGrid) 0 0).hasval = true ∧
    ((recalc infGrid) 0 0).val = Val.pinf := by
  refine ⟨rfl, ?_⟩
  have hv := recalc_visit infGrid 0 0 (by decide) (by decide) (by decide)
    (by decide)
  have hB : recalcBefore infGrid 0 0 = infGrid := rfl
  rw [hB] at hv
  have hnum := recalcCell_at_numeric infGrid 0 0 Val.pinf (by decide) (by decide)
    (by decide)
  rw [hv, hnum]
  exact ⟨rfl, rfl⟩

/-- Witness: the classification theorem applied to the blank grid at A1,
whose empty cell keeps `hasval = false` across the pass. -/
theorem recalc_classification_witness :
    ((recalc blankGrid) 0 0).text = (blankGrid 0 0).text ∧
      ((recalc blankGrid) 0 0).hasval = false := by
  have h := recalc_classification blankGrid 0 0 (by decide) (by decide)
    (by decide) (by decide) (fun _ _ _ => rfl)
  exact ⟨h.1, h.2.2.2.2 rfl⟩
